import Mathlib

/-!
Verification development for the `bioino` GFF3 toolkit (`src/bioino/gff.py`).

The embedding models Python strings as `List Char`, Python dicts as ordered
association lists with update-in-place-or-append semantics, and — crucially —
models dict *identity*: `dataclasses.replace(obj)` (the implementation of
`GffLine.copy`) copies the reference to the `attributes` dict, not the dict
itself, so copies alias the original.  We therefore thread an explicit heap of
dicts and represent a `GffLine`'s `attributes` field as a heap id.
-/

namespace Bioino

/-- Python `str` modelled as a list of characters. -/
abbrev Str := List Char

/-- Coerce a Lean string literal to the `Str` model. -/
def toL (s : String) : Str := s.data

/-- Characters stripped by Python `str.strip()` with no argument. -/
def isSpacePy (c : Char) : Bool :=
  c = ' ' || c = '\t' || c = '\n' || c = '\r' || c = '\x0b' || c = '\x0c'

/-- `str.strip()`: remove leading and trailing whitespace. -/
def pyStrip (s : Str) : Str :=
  ((s.dropWhile isSpacePy).reverse.dropWhile isSpacePy).reverse

/-- Auxiliary for `pySplit`: accumulates the current field (reversed). -/
def pySplitAux (sep : Char) : Str → Str → List Str
  | [], acc => [acc.reverse]
  | c :: cs, acc =>
    if c = sep then acc.reverse :: pySplitAux sep cs []
    else pySplitAux sep cs (c :: acc)

/-- Python `s.split(sep)` for a single-character separator:
`''.split(sep) = ['']`, and separators delimit (possibly empty) fields. -/
def pySplit (sep : Char) (s : Str) : List Str := pySplitAux sep s []

/-- Python `sep.join(fields)` for a single-character separator. -/
def pyJoin (sep : Char) (fs : List Str) : Str := List.intercalate [sep] fs

/-- Decimal digit to character (used to model Python `str(int)`). -/
def pyDigitChar (n : Nat) : Char :=
  match n with
  | 0 => '0' | 1 => '1' | 2 => '2' | 3 => '3' | 4 => '4'
  | 5 => '5' | 6 => '6' | 7 => '7' | 8 => '8' | 9 => '9'
  | _ => '*'

/-- Character to decimal digit value. -/
def pyCharVal (c : Char) : Nat := c.toNat - 48

/-- Is an ASCII decimal digit. -/
def isDigitPy (c : Char) : Bool := '0' ≤ c && c ≤ '9'

/-- Fuel-driven rendering of a positive natural in decimal (most significant
digit first); fuel bounds the number of divisions by 10. -/
def natToStrAux : Nat → Nat → Str
  | 0, _ => []
  | fuel + 1, n =>
    if n < 10 then [pyDigitChar n]
    else natToStrAux fuel (n / 10) ++ [pyDigitChar (n % 10)]

/-- Python `str(n)` for a natural number. -/
def natToStr (n : Nat) : Str := natToStrAux (n + 1) n

/-- Python `str(n)` for an integer. -/
def intToStr (n : Int) : Str :=
  if n < 0 then '-' :: natToStr (-n).toNat else natToStr n.toNat

/-- Value of an all-digit string, most significant digit first. -/
def digitsVal (s : Str) : Nat := s.foldl (fun a c => a * 10 + pyCharVal c) 0

/-- Parse a nonempty all-digit string; `none` otherwise. -/
def parseDigits? (s : Str) : Option Nat :=
  if s ≠ [] ∧ s.all isDigitPy then some (digitsVal s) else none

/-- Python `int(s)`: strips whitespace, accepts an optional sign followed by
decimal digits; raises `ValueError` (modelled as `none`) otherwise.
(Python also accepts underscore digit grouping and non-ASCII digits, which
never occur in this development.) -/
def pyInt (s : Str) : Option Int :=
  match pyStrip s with
  | '-' :: rest => (parseDigits? rest).map (fun n => -(n : Int))
  | '+' :: rest => (parseDigits? rest).map (fun n => (n : Int))
  | rest => (parseDigits? rest).map (fun n => (n : Int))

/-! ### Python dicts and the heap of dict objects -/

/-- An attribute value: the parser produces strings; the lookup-table code
stores integer `offset`s. -/
inductive AttrVal where
  | str (s : Str)
  | int (n : Int)
deriving DecidableEq

/-- A Python dict with string keys, modelled as an ordered association list
(Python dicts preserve insertion order). -/
abbrev PyDict := List (Str × AttrVal)

/-- `d[k]` lookup. -/
def dictGet? (d : PyDict) (k : Str) : Option AttrVal :=
  (d.find? (fun kv => kv.1 = k)).map (fun kv => kv.2)

/-- `d[k] = v`: update in place if present (keeping the key's position),
else append at the end — Python dict assignment semantics. -/
def dictSet (d : PyDict) (k : Str) (v : AttrVal) : PyDict :=
  match d with
  | [] => [(k, v)]
  | (k', v') :: rest =>
    if k' = k then (k', v) :: rest else (k', v') :: dictSet rest k v

/-- `k in d`. -/
def dictContains (d : PyDict) (k : Str) : Bool := (dictGet? d k).isSome

/-- `dict(pairs)`: build a dict from pairs, later duplicates overwriting in
place — the semantics of `dict(zip(...))`. -/
def dictOfPairs (ps : List (Str × AttrVal)) : PyDict :=
  ps.foldl (fun d kv => dictSet d kv.1 kv.2) []

/-- The heap of dict objects: `GffLine.attributes` holds an id into this heap,
so that the aliasing produced by `dataclasses.replace` is modelled exactly.
The store is an association list in which the most recent binding of an id
shadows older ones. -/
structure Heap where
  next : Nat
  store : List (Nat × PyDict)
deriving DecidableEq

/-- The empty heap. -/
def Heap.empty : Heap := ⟨0, []⟩

/-- Allocate a fresh dict object, returning its id. -/
def Heap.alloc (h : Heap) (d : PyDict) : Nat × Heap :=
  (h.next, ⟨h.next + 1, (h.next, d) :: h.store⟩)

/-- Read the dict stored at an id. -/
def Heap.read (h : Heap) (i : Nat) : PyDict :=
  ((h.store.find? (fun e => e.1 = i)).map (fun e => e.2)).getD []

/-- Overwrite the dict stored at an id (an in-place dict mutation). -/
def Heap.write (h : Heap) (i : Nat) (d : PyDict) : Heap :=
  ⟨h.next, (i, d) :: h.store⟩

/-! ### The GFF data model (`GffColumns`, `GffLine`, `GffMetadatum`) -/

deriving instance DecidableEq for Except

/-- Python exceptions that the modelled code can raise. -/
inductive PyErr where
  | typeError
  | valueError (msg : Str)
  | ioError (msg : Str)
  | keyError (key : Str)
  | attributeError
deriving DecidableEq

/-- `GffColumns`: the 8 fixed GFF columns; `start`/`end` coerced to `int` by
`__post_init__`.  (`end` is written `end_` because `end` is reserved.) -/
structure GffColumns where
  seqid : Str
  source : Str
  feature : Str
  start : Int
  end_ : Int
  score : Str
  strand : Str
  phase : Str
deriving DecidableEq

/-- Message of CPython `int('X')`: `invalid literal for int() with base 10: 'X'`.
The message names only the offending field, never the whole line. -/
def invalidIntMsg (field_ : Str) : Str :=
  toL "invalid literal for int\x28\x29 with base 10: " ++ '\x27' :: field_ ++ ['\x27']

/-- `GffColumns(*args)` with `__post_init__`: between 5 and 8 positional
arguments (else `TypeError`), defaults `score='.'`, `strand='+'`, `phase='.'`,
and `int()` coercion of `start`/`end` (a failure is a `ValueError`). -/
def mkGffColumns (args : List Str) : Except PyErr GffColumns :=
  let build := fun (seqid source feature start end_ score strand phase : Str) =>
    match pyInt start with
    | none => Except.error (PyErr.valueError (invalidIntMsg start))
    | some s =>
      match pyInt end_ with
      | none => Except.error (PyErr.valueError (invalidIntMsg end_))
      | some e => Except.ok ⟨seqid, source, feature, s, e, score, strand, phase⟩
  match args with
  | [a, b, c, d, e] => build a b c d e (toL ".") (toL "+") (toL ".")
  | [a, b, c, d, e, f] => build a b c d e f (toL "+") (toL ".")
  | [a, b, c, d, e, f, g] => build a b c d e f g (toL ".")
  | [a, b, c, d, e, f, g, h] => build a b c d e f g h
  | _ => Except.error PyErr.typeError

/-- Render `GffColumns` as 8 tab-joined fields (`GffColumns.__str__`). -/
def gffColumnsStr (c : GffColumns) : Str :=
  pyJoin '\t' [c.seqid, c.source, c.feature, intToStr c.start, intToStr c.end_,
               c.score, c.strand, c.phase]

/-- A GFF data line: the 8 columns plus the id of its attributes dict. -/
structure GffLine where
  columns : GffColumns
  attributes : Nat
deriving DecidableEq

/-- `GffLine.copy`, i.e. `dataclasses.replace(self)`: a new object with the
same column values and the *same* attributes dict (the heap id is copied, the
dict is not — copies alias the original's dict). -/
def GffLine.copy (l : GffLine) : GffLine := l

/-- `GffLine._get_gff_attributes`: split the raw attribute string on `=`, then
each group on `;`; keys are the last `;`-segment of each group, values the
first `;`-segment of each group after the first; zip truncates to the shorter. -/
def _get_gff_attributes (x : Str) : PyDict :=
  let splits_on_equal_sign := (pySplit '=' x).map (pySplit ';')
  let attributes := splits_on_equal_sign.map (fun item => item.getLastD [])
  let values := (splits_on_equal_sign.drop 1).map (fun item => item.headD [])
  dictOfPairs ((attributes.zip values).map (fun kv => (kv.1, AttrVal.str kv.2)))

/-- Python `str(v)` of an attribute value. -/
def pyStrOfVal : AttrVal → Str
  | .str s => s
  | .int n => intToStr n

/-- The `;`-joined `key=value` attribute string of `GffLine.__str__`. -/
def renderAttrs (d : PyDict) : Str :=
  pyJoin ';' (d.map (fun kv => kv.1 ++ '=' :: pyStrOfVal kv.2))

/-- `GffLine.__str__`: columns, a tab, then the attribute string. -/
def gffLineStr (h : Heap) (l : GffLine) : Str :=
  gffColumnsStr l.columns ++ '\t' :: renderAttrs (h.read l.attributes)

/-- A GFF metadata line (`GffMetadatum`). -/
structure GffMetadatum where
  name : Str
  flag : Str
  values : List Str
deriving DecidableEq

/-- `GffMetadatum.__post_init__`: the flag must be `free` or `constrained`. -/
def mkGffMetadatum (name flag : Str) (values : List Str) :
    Except PyErr GffMetadatum :=
  if flag = toL "free" ∨ flag = toL "constrained" then
    Except.ok ⟨name, flag, values⟩
  else
    Except.error (PyErr.valueError (toL "GffMetadatum.flag must be one of [\x27free\x27, \x27constrained\x27]]."))

/-- `GffMetadatum.__str__`: `##`/`#` prefix by flag, the name, a tab, then the
tab-joined values (note the tab is emitted even when there are no values). -/
def gffMetadatumStr (m : GffMetadatum) : Str :=
  (if m.flag = toL "constrained" then toL "##" else toL "#")
    ++ m.name ++ '\t' :: pyJoin '\t' m.values

/-! ### The lookup table (`GffFile._gapfill_table`, `GffFile._lookup_table`) -/

/-- The feature types ignored by the lookup table. -/
def _GFF_FEATURE_BLOCKLIST : List Str := [toL "region", toL "repeat_region"]

/-- The lookup table: a `defaultdict(list)` keyed by chromosome coordinate,
modelled — like every Python dict here — as an insertion-ordered association
list with distinct keys. -/
abbrev Table := List (Int × List GffLine)

/-- `lookup_table[i]` as a pure read (`[]` when the key is absent). -/
def tableGet (t : Table) (i : Int) : List GffLine :=
  ((t.find? (fun e => e.1 = i)).map (fun e => e.2)).getD []

/-- `lookup_table[i] = v`: replace in place if the key is present (keeping its
position), else append — Python dict assignment. -/
def tableSet (t : Table) (i : Int) (v : List GffLine) : Table :=
  match t with
  | [] => [(i, v)]
  | (i', v') :: rest =>
    if i' = i then (i', v) :: rest else (i', v') :: tableSet rest i v

/-- `lookup_table[i].append(l)` on a `defaultdict(list)`. -/
def tableAppend (t : Table) (i : Int) (l : GffLine) : Table :=
  tableSet t i (tableGet t i ++ [l])

/-- `lookup_table.update(gap_table)`: for each key of `gap_table`, the value
stored in `lookup_table` is *replaced* (plain `dict.update`). -/
def tableUpdate (t gap : Table) : Table :=
  gap.foldl (fun acc kv => tableSet acc kv.1 kv.2) t

/-- The key list of the table. -/
def tableKeys (t : Table) : List Int := t.map (fun e => e.1)

/-- `max(lookup_table)`: the largest coordinate key (the source raises on an
empty table; that case is unreachable and modelled as 0). -/
def tableMax (t : Table) : Int :=
  match tableKeys t with
  | [] => 0
  | k :: ks => ks.foldl max k

/-- `pyRange` by length and first element. -/
def pyRangeAux : Nat → Int → List Int
  | 0, _ => []
  | n + 1, a => a :: pyRangeAux n (a + 1)

/-- Python `range(a, b)`. -/
def pyRange (a b : Int) : List Int := pyRangeAux (b - a).toNat a

/-- Attribute keys and tag fragments used by the lookup-table code. -/
def kName : Str := toL "Name"

/-- The `Parent` attribute key. -/
def kParent : Str := toL "Parent"

/-- The `offset` attribute key. -/
def kOffset : Str := toL "offset"

/-- The `locus_tag` attribute key. -/
def kLocusTag : Str := toL "locus_tag"

/-- The `+` strand. -/
def sPlus : Str := toL "+"

/-- The `_up-` locus-tag fragment. -/
def tUp : Str := toL "_up-"

/-- The `_down-` locus-tag fragment. -/
def tDown : Str := toL "_down-"

/-- Python `+` of a string and an attribute value: `TypeError` unless the
value is a string too. -/
def pyAddStr (a : Str) (v : AttrVal) : Except PyErr AttrVal :=
  match v with
  | .str s => .ok (.str (a ++ s))
  | .int _ => .error .typeError

/-- The common shape of the two gap-filling loops of `_gapfill_table`: for
each `i` in the range, a fresh attributes dict `base_attr | offset=(i-ref)*sign`
is allocated and a `replace`d copy of `base` pointing at it is appended at
coordinate `i`. -/
def fillFresh (base : GffLine) (base_attr : PyDict) (ref sign : Int)
    (is : List Int) (th : Table × Heap) : Table × Heap :=
  match is with
  | [] => th
  | i :: rest =>
    let offset := (i - ref) * sign
    let this_attr := dictSet base_attr kOffset (.int offset)
    let alloc' := th.2.alloc this_attr
    fillFresh base base_attr ref sign rest
      (tableAppend th.1 i { base with attributes := alloc'.1 }, alloc'.2)

/-- The feature-body loop of `_lookup_table`: for each `i` in the range, store
`gff_line.copy()` — which *shares* the original's attributes dict — and assign
`attributes['offset'] = abs(i - offset_start)` in place, i.e. a heap write at
the original's own id. -/
def fillShared (gff_line : GffLine) (offset_start : Int)
    (is : List Int) (th : Table × Heap) : Table × Heap :=
  match is with
  | [] => th
  | i :: rest =>
    let offset := |i - offset_start|
    let this_gff_line := gff_line.copy
    let h' := th.2.write this_gff_line.attributes
      (dictSet (th.2.read this_gff_line.attributes) kOffset (.int offset))
    fillShared gff_line offset_start rest
      (tableAppend th.1 i this_gff_line, h')

/-- The trailing loop of `_lookup_table`: for each `i`, allocate a fresh
`attr | offset=(i-ref)*sign` dict and rebind `last_feature` to a `replace`d
copy pointing at it before appending it at coordinate `i`. -/
def trailingLoop (attr : PyDict) (ref sign : Int)
    (is : List Int) (acc : Table × Heap × GffLine) : Table × Heap × GffLine :=
  match is with
  | [] => acc
  | i :: rest =>
    let offset := (i - ref) * sign
    let new_attributes := dictSet attr kOffset (.int offset)
    let alloc' := acc.2.1.alloc new_attributes
    let lastf : GffLine := { acc.2.2 with attributes := alloc'.1 }
    trailingLoop attr ref sign rest (tableAppend acc.1 i lastf, alloc'.2, lastf)

/-- `GffFile._gapfill_table`: build a fresh `defaultdict(list)` covering the
gap `[last_end+1, this_start-1]`, split at the midpoint.  Each stored entry is
`replace(intergenic, attributes=...)` over a freshly copied-and-overridden
attributes dict.  The `1.`/`-1.` float signs multiply exact integer offsets
and the `int()` truncation is exact, so signs are modelled as integers. -/
def _gapfill_table (heap : Heap) (gff_line : GffLine)
    (last_feature : Option GffLine) : Except PyErr (Table × Heap) :=
  let this_start := gff_line.columns.start
  let (last_end, intergenic0) :=
    match last_feature with
    | none => ((0 : Int), gff_line.copy)
    | some lf => (lf.columns.end_, lf.copy)
  let intergenic1 := gff_line.copy
  let gap_span := (this_start - 1) - (last_end + 1)
  let gap_midpoint := last_end + 1 + Int.fdiv gap_span 2
  let (pre_mid_offset_start, pre_mid_sign, preTag) :=
    if intergenic0.columns.strand = sPlus then
      (intergenic0.columns.start, (1 : Int),
       if last_feature.isSome then tDown else tUp)
    else
      (intergenic0.columns.end_, (-1 : Int),
       if last_feature.isSome then tUp else tDown)
  let (post_mid_offset_start, post_mid_sign, postTag) :=
    if intergenic1.columns.strand = sPlus then
      (intergenic1.columns.start, (-1 : Int), tUp)
    else
      (intergenic1.columns.end_, (1 : Int), tDown)
  match dictGet? (heap.read intergenic0.attributes) kName with
  | none => .error (.keyError kName)
  | some name0 =>
  match pyAddStr preTag name0 with
  | .error e => .error e
  | .ok tag0 =>
  match dictGet? (heap.read intergenic1.attributes) kName with
  | none => .error (.keyError kName)
  | some name1 =>
  match pyAddStr postTag name1 with
  | .error e => .error e
  | .ok tag1 =>
  let attr0 := dictSet (heap.read intergenic0.attributes) kLocusTag tag0
  let attr1 := dictSet (heap.read intergenic1.attributes) kLocusTag tag1
  let th := fillFresh intergenic0 attr0 pre_mid_offset_start pre_mid_sign
    (pyRange (last_end + 1) (gap_midpoint + 1)) ([], heap)
  let th := fillFresh intergenic1 attr1 post_mid_offset_start post_mid_sign
    (pyRange (gap_midpoint + 1) this_start) th
  .ok th

/-- The eligibility filter of `_lookup_table`'s main loop: feature type not in
the blocklist, `Name` present, `Parent` absent. -/
def eligibleLine (h : Heap) (g : GffLine) : Bool :=
  !(_GFF_FEATURE_BLOCKLIST.contains g.columns.feature) &&
  dictContains (h.read g.attributes) kName &&
  !(dictContains (h.read g.attributes) kParent)

/-- One iteration of `_lookup_table`'s main loop: gap-fill, merge via
`dict.update`, then the feature-body fill, then `last_feature = copy()`. -/
def lookupStep (st : Table × Heap × Option GffLine) (gff_line : GffLine) :
    Except PyErr (Table × Heap × Option GffLine) :=
  let (t, h, last_feature) := st
  if eligibleLine h gff_line then
    match _gapfill_table h gff_line last_feature with
    | .error e => .error e
    | .ok gh =>
      let t := tableUpdate t gh.1
      let offset_start :=
        if gff_line.columns.strand = sPlus then gff_line.columns.start
        else gff_line.columns.end_
      let th := fillShared gff_line offset_start
        (pyRange gff_line.columns.start (gff_line.columns.end_ + 1)) (t, gh.2)
      .ok (th.1, th.2, some gff_line.copy)
  else
    .ok (t, h, last_feature)

/-- The trailing-region fill after the main loop: `range(end, end + 1000)` —
note it starts *at* the last feature's `end`, not one past it. -/
def lookupTrailing (t : Table) (h : Heap) (lf : GffLine) :
    Except PyErr (Table × Heap) :=
  let (last_offset_start, last_sign, lastTag) :=
    if lf.columns.strand = sPlus then (lf.columns.start, (1 : Int), tDown)
    else (lf.columns.end_, (-1 : Int), tUp)
  match dictGet? (h.read lf.attributes) kName with
  | none => .error (.keyError kName)
  | some nm =>
  match pyAddStr lastTag nm with
  | .error e => .error e
  | .ok tag =>
  let attr := dictSet (h.read lf.attributes) kLocusTag tag
  let res := trailingLoop attr last_offset_start last_sign
    (pyRange lf.columns.end_ (lf.columns.end_ + 1000)) (t, h, lf)
  .ok (res.1, res.2.1)

/-- The coverage validation ending `_lookup_table`: every coordinate from 1 to
the maximum key must map to a nonempty list, else the function raises.  (The
source's raise itself crashes with a `TypeError` — it joins a list of ints —
but either way an exception propagates and no table is returned.) -/
def lookupValidate (th : Table × Heap) : Except PyErr (Table × Heap) :=
  let missing := (pyRange 1 (tableMax th.1 + 1)).filter
    (fun i => (tableGet th.1 i).isEmpty)
  if missing.isEmpty then .ok th else .error .typeError

/-- The main loop of `_lookup_table`: a fold of `lookupStep` over the parsed
records, starting from an empty table and no `last_feature`. -/
def lookupFold (heap : Heap) (lines : List GffLine) :
    Except PyErr (Table × Heap × Option GffLine) :=
  lines.foldl
    (fun (st : Except PyErr (Table × Heap × Option GffLine)) g =>
      st.bind (fun s => lookupStep s g))
    (Except.ok ([], heap, none))

/-- `GffFile._lookup_table` over the parsed records and the dict heap:
the main loop, the `last_feature` dereference (an `AttributeError` when no
line was eligible), the trailing fill, and the coverage validation. -/
def _lookup_table (heap : Heap) (lines : List GffLine) :
    Except PyErr (Table × Heap) :=
  match lookupFold heap lines with
  | .error e => .error e
  | .ok (_, _, none) => .error .attributeError
  | .ok (t, h, some last_feature) =>
    match lookupTrailing t h last_feature with
    | .error e => .error e
    | .ok th => lookupValidate th

/-- Whether a run returned a table rather than raising. -/
def exceptOk {ε α : Type} : Except ε α → Bool
  | .ok _ => true
  | .error _ => false

/-! ### The record-stream parser (`GffFile._from_file`, `GffFile.from_file`) -/

/-- The `IOError` message raised for a line whose first eight fields cannot
construct `GffColumns` (a `TypeError`): it embeds the offending raw line. -/
def ioMsg (line : Str) : Str :=
  toL "\n!!! ERROR: Probably corrupted file. Here\x27s the last line read:\n\n"
    ++ line ++ toL "\n\n"

/-- Parsing of one data line inside `_from_file`: split strictly on tabs, try
`GffColumns(*data[:8])` — only a `TypeError` is caught and re-raised as the
`IOError` embedding the raw line; a `ValueError` from `int()` propagates
unchanged — then parse the tab-rejoined fields from the ninth on as the
attributes dict, allocated on the heap. -/
def parseDataLine (heap : Heap) (line : Str) : Except PyErr (GffLine × Heap) :=
  let data := pySplit '\t' line
  match mkGffColumns (data.take 8) with
  | .error .typeError => .error (.ioError (ioMsg line))
  | .error e => .error e
  | .ok columns =>
    let attributes := pyJoin '\t' (data.drop 8)
    let alloc' := heap.alloc (_get_gff_attributes attributes)
    .ok (⟨columns, alloc'.1⟩, alloc'.2)

/-- Parsing of one header line inside `_from_file`: `##` means `constrained`,
a single `#` means `free`; all leading hashes are stripped, then leading
whitespace, then the text is split on tabs into name and values. -/
def parseHeaderLine (line : Str) : Except PyErr GffMetadatum :=
  let flag := if (toL "##").isPrefixOf line then toL "constrained" else toL "free"
  let this_metadata :=
    pySplit '\t' ((line.dropWhile (fun c => c = '#')).dropWhile isSpacePy)
  mkGffMetadatum (this_metadata.headD []) flag (this_metadata.drop 1)

/-- An item yielded by the `_from_file` generator: the metadata block (yielded
once, right before the first data line) or a parsed record. -/
inductive GffItem where
  | meta (ms : List GffMetadatum)
  | line (l : GffLine)
deriving DecidableEq

/-- The generator loop of `_from_file` over the newline-split lines of the
file.  `ms` accumulates header lines; `shown` records whether the metadata
block has been yielded.  The source consumes this stream lazily; the model
materializes it, which is equivalent for the properties stated here. -/
def _from_fileAux (heap : Heap) (ms : List GffMetadatum) (shown : Bool)
    (acc : List GffItem) : List Str → Except PyErr (List GffItem × Heap)
  | [] => .ok (acc, heap)
  | l :: rest =>
    let line := pyStrip l
    if (toL "#").isPrefixOf line then
      match parseHeaderLine line with
      | .error e => .error e
      | .ok m => _from_fileAux heap (ms ++ [m]) shown acc rest
    else if 0 < line.length then
      let acc' := if !shown then acc ++ [GffItem.meta ms] else acc
      match parseDataLine heap line with
      | .error e => .error e
      | .ok (gl, heap') =>
        _from_fileAux heap' ms true (acc' ++ [GffItem.line gl]) rest
    else
      _from_fileAux heap ms shown acc rest

/-- `GffFile._from_file` over the lines of the input text. -/
def _from_file (heap : Heap) (lines : List Str) :
    Except PyErr (List GffItem × Heap) :=
  _from_fileAux heap [] false [] lines

/-- `GffFile`: the realized metadata block and the record stream. -/
structure GffFile where
  metadata : List GffMetadatum
  lines : List GffLine
deriving DecidableEq

/-- The scan in `GffFile.from_file`: consume stream items up to and including
the first metadata block; the remainder is the record stream. -/
def takeAfterMeta : List GffItem → List GffMetadatum × List GffItem
  | [] => ([], [])
  | .meta ms :: rest => (ms, rest)
  | .line _ :: rest => takeAfterMeta rest

/-- `GffFile.from_file`: scan the parser stream for the metadata block (which
is yielded right before the first record, if ever); with no data lines the
stream is empty and the metadata defaults to `[]` — the header lines are
discarded.  The remaining items are all records. -/
def from_file (heap : Heap) (input : List Str) :
    Except PyErr (GffFile × Heap) :=
  match _from_file heap input with
  | .error e => .error e
  | .ok (items, heap') =>
    let res := takeAfterMeta items
    .ok (⟨res.1, res.2.filterMap (fun it =>
            match it with
            | .line gl => some gl
            | .meta _ => none)⟩,
         heap')

/-- `GffFile.write`: one print of the joined metadata block (an empty block
prints a single empty line), then one line per record. -/
def writeGffFile (h : Heap) (g : GffFile) : List Str :=
  pySplit '\n' (pyJoin '\n' (g.metadata.map gffMetadatumStr))
    ++ g.lines.map (gffLineStr h)

/-- A string inert under the attribute grammar: free of `=`, `;` and tab.
(Condition of the amended round-trip claim.) -/
def cleanAttr (s : Str) : Bool :=
  !(s.contains '=') && !(s.contains ';') && !(s.contains '\t')

/-- A column field free of tabs (condition of the amended round-trip claim). -/
def cleanField (s : Str) : Bool := !(s.contains '\t')

/-- Proof scaffolding for the attribute round trip: the expected groups of the
`=`-split of a rendered dict, after the leading key — the final value alone,
and otherwise `value;next-key` glue segments. -/
def renderedGroups : List (Str × Str) → List Str
  | [] => []
  | (_, v) :: rest =>
    match rest with
    | [] => [v]
    | (k2, _) :: _ => (v ++ ';' :: k2) :: renderedGroups rest

/-! ### Concrete inputs for the claims: a single `+` feature `[100, 200]` -/

/-- Attributes `{ID: g1, Name: g1}` of the single feature. -/
def ex1Dict : PyDict := [(toL "ID", .str (toL "g1")), (kName, .str (toL "g1"))]

/-- Heap holding the parsed dict at id 0. -/
def ex1Heap : Heap := (Heap.empty.alloc ex1Dict).2

/-- A `+`-strand `gene` feature spanning `[100, 200]`. -/
def ex1Line : GffLine :=
  ⟨⟨toL "chr", toL "src", toL "gene", 100, 200, toL ".", sPlus, toL "."⟩, 0⟩

/-- The copied-and-tagged dict used by both gap-fill halves (no upstream
feature, strand `+`, so both halves tag `_up-g1`). -/
def ex1Attr0 : PyDict := dictSet ex1Dict kLocusTag (.str (tUp ++ toL "g1"))

/-- First (pre-midpoint) half of the gap fill: `[1, 50]`. -/
def ex1GapA : Table × Heap :=
  fillFresh ex1Line ex1Attr0 100 1 (pyRange 1 51) ([], ex1Heap)

/-- Result of `_gapfill_table` on the single feature: gap `[1, 99]` split at
midpoint 50. -/
def ex1Gap : Table × Heap :=
  fillFresh ex1Line ex1Attr0 100 (-1) (pyRange 51 100) ex1GapA

/-- State after the feature-body fill `[100, 200]`. -/
def ex1Body : Table × Heap :=
  fillShared ex1Line 100 (pyRange 100 201) (tableUpdate [] ex1Gap.1, ex1Gap.2)

/-- The tagged dict driving the trailing fill. -/
def ex1TrailAttr : PyDict :=
  dictSet (ex1Body.2.read 0) kLocusTag (.str (tDown ++ toL "g1"))

/-- State after the trailing fill `range(200, 1200)`. -/
def ex1Trail : Table × Heap × GffLine :=
  trailingLoop ex1TrailAttr 100 1 (pyRange 200 1200)
    (ex1Body.1, ex1Body.2, ex1Line)

/-! ### Concrete inputs: two `+` genes `[1, 10]` and `[21, 30]` (example 2) -/

/-- Attributes of the first gene. -/
def ex2d1 : PyDict := [(toL "ID", .str (toL "g1")), (kName, .str (toL "g1"))]

/-- Attributes of the second gene. -/
def ex2d2 : PyDict := [(toL "ID", .str (toL "g2")), (kName, .str (toL "g2"))]

/-- Heap holding the two dicts at ids 0 and 1. -/
def ex2Heap : Heap := ((Heap.empty.alloc ex2d1).2.alloc ex2d2).2

/-- Gene `g1`, `+` strand, `[1, 10]`. -/
def ex2g1 : GffLine :=
  ⟨⟨toL "seqA", toL "src", toL "gene", 1, 10, toL ".", sPlus, toL "."⟩, 0⟩

/-- Gene `g2`, `+` strand, `[21, 30]`. -/
def ex2g2 : GffLine :=
  ⟨⟨toL "seqA", toL "src", toL "gene", 21, 30, toL ".", sPlus, toL "."⟩, 1⟩

/-- Tagged dict for the degenerate leading gap of `g1` (both halves empty). -/
def ex2A1 : PyDict := dictSet ex2d1 kLocusTag (.str (tUp ++ toL "g1"))

/-- First gap fill of the run (empty ranges). -/
def ex2Gap1a : Table × Heap := fillFresh ex2g1 ex2A1 1 1 (pyRange 1 1) ([], ex2Heap)

/-- Result of the degenerate leading `_gapfill_table`. -/
def ex2Gap1 : Table × Heap := fillFresh ex2g1 ex2A1 1 (-1) (pyRange 1 1) ex2Gap1a

/-- State after the body fill `[1, 10]` of `g1`. -/
def ex2Body1 : Table × Heap :=
  fillShared ex2g1 1 (pyRange 1 11) (tableUpdate [] ex2Gap1.1, ex2Gap1.2)

/-- Upstream-tagged dict of the `[11, 20]` gap (note the stale `offset` left by
the body pass on the shared dict). -/
def ex2A2 : PyDict :=
  dictSet (dictSet ex2d1 kOffset (.int 9)) kLocusTag (.str (tDown ++ toL "g1"))

/-- Downstream-tagged dict of the `[11, 20]` gap. -/
def ex2A3 : PyDict := dictSet ex2d2 kLocusTag (.str (tUp ++ toL "g2"))

/-- Pre-midpoint gap fill `[11, 15]`. -/
def ex2Gap2a : Table × Heap :=
  fillFresh ex2g1 ex2A2 1 1 (pyRange 11 16) ([], ex2Body1.2)

/-- Result of `_gapfill_table` between `g1` and `g2`: post half `[16, 20]`. -/
def ex2Gap2 : Table × Heap :=
  fillFresh ex2g2 ex2A3 21 (-1) (pyRange 16 21) ex2Gap2a

/-- State after the body fill `[21, 30]` of `g2`. -/
def ex2Body2 : Table × Heap :=
  fillShared ex2g2 21 (pyRange 21 31) (tableUpdate ex2Body1.1 ex2Gap2.1, ex2Gap2.2)

/-- Tagged dict driving the trailing fill of the two-gene run. -/
def ex2TrailAttr : PyDict :=
  dictSet (ex2Body2.2.read ex2g2.attributes) kLocusTag (.str (tDown ++ toL "g2"))

/-- State after the trailing fill `range(30, 1030)`. -/
def ex2Trail : Table × Heap × GffLine :=
  trailingLoop ex2TrailAttr 21 1 (pyRange 30 1030)
    (ex2Body2.1, ex2Body2.2, ex2g2)

/-! ### Concrete inputs: overlapping features A `[1,10]`, B `[5,8]`, C `[12,20]`
(example 3, exhibiting the `dict.update` replacement) -/

/-- Attributes of feature A. -/
def ex3dA : PyDict := [(toL "ID", .str (toL "A")), (kName, .str (toL "A"))]

/-- Attributes of feature B. -/
def ex3dB : PyDict := [(toL "ID", .str (toL "B")), (kName, .str (toL "B"))]

/-- Attributes of feature C. -/
def ex3dC : PyDict := [(toL "ID", .str (toL "C")), (kName, .str (toL "C"))]

/-- Heap holding the three dicts at ids 0, 1, 2. -/
def ex3Heap : Heap :=
  (((Heap.empty.alloc ex3dA).2.alloc ex3dB).2.alloc ex3dC).2

/-- Feature A, `+` strand, `[1, 10]`. -/
def ex3A : GffLine :=
  ⟨⟨toL "seqA", toL "src", toL "gene", 1, 10, toL ".", sPlus, toL "."⟩, 0⟩

/-- Feature B, `+` strand, `[5, 8]`, contained in A. -/
def ex3B : GffLine :=
  ⟨⟨toL "seqA", toL "src", toL "gene", 5, 8, toL ".", sPlus, toL "."⟩, 1⟩

/-- Feature C, `+` strand, `[12, 20]`. -/
def ex3C : GffLine :=
  ⟨⟨toL "seqA", toL "src", toL "gene", 12, 20, toL ".", sPlus, toL "."⟩, 2⟩

/-- Tagged dict of A's degenerate leading gap. -/
def ex3A1 : PyDict := dictSet ex3dA kLocusTag (.str (tUp ++ toL "A"))

/-- A's leading gap fill (empty). -/
def ex3Gap1a : Table × Heap := fillFresh ex3A ex3A1 1 1 (pyRange 1 1) ([], ex3Heap)

/-- Result of A's `_gapfill_table`. -/
def ex3Gap1 : Table × Heap := fillFresh ex3A ex3A1 1 (-1) (pyRange 1 1) ex3Gap1a

/-- State after A's body fill `[1, 10]`. -/
def ex3Body1 : Table × Heap :=
  fillShared ex3A 1 (pyRange 1 11) (tableUpdate [] ex3Gap1.1, ex3Gap1.2)

/-- Tagged dicts of the empty A→B gap (overlap: both ranges empty). -/
def ex3A2 : PyDict :=
  dictSet (dictSet ex3dA kOffset (.int 9)) kLocusTag (.str (tDown ++ toL "A"))

/-- Downstream-tagged dict of the empty A→B gap. -/
def ex3A3 : PyDict := dictSet ex3dB kLocusTag (.str (tUp ++ toL "B"))

/-- Pre half of the A→B gap: `range(11, 8)` is empty. -/
def ex3Gap2a : Table × Heap :=
  fillFresh ex3A ex3A2 1 1 (pyRange 11 8) ([], ex3Body1.2)

/-- Result of the A→B `_gapfill_table`: post half `range(8, 5)` also empty. -/
def ex3Gap2 : Table × Heap :=
  fillFresh ex3B ex3A3 5 (-1) (pyRange 8 5) ex3Gap2a

/-- State after B's body fill `[5, 8]`. -/
def ex3Body2 : Table × Heap :=
  fillShared ex3B 5 (pyRange 5 9) (tableUpdate ex3Body1.1 ex3Gap2.1, ex3Gap2.2)

/-- Upstream-tagged dict of the B→C gap `[9, 11]` (with B's stale offset 3). -/
def ex3A4 : PyDict :=
  dictSet (dictSet ex3dB kOffset (.int 3)) kLocusTag (.str (tDown ++ toL "B"))

/-- Downstream-tagged dict of the B→C gap. -/
def ex3A5 : PyDict := dictSet ex3dC kLocusTag (.str (tUp ++ toL "C"))

/-- Pre half of the B→C gap: `[9, 10]` — the two coordinates that already hold
A's body records and that `dict.update` will replace. -/
def ex3Gap3a : Table × Heap :=
  fillFresh ex3B ex3A4 5 1 (pyRange 9 11) ([], ex3Body2.2)

/-- Result of the B→C `_gapfill_table`: post half `[11]`. -/
def ex3Gap3 : Table × Heap :=
  fillFresh ex3C ex3A5 12 (-1) (pyRange 11 12) ex3Gap3a

/-- State after C's body fill `[12, 20]`. -/
def ex3Body3 : Table × Heap :=
  fillShared ex3C 12 (pyRange 12 21) (tableUpdate ex3Body2.1 ex3Gap3.1, ex3Gap3.2)

/-- Tagged dict of the trailing fill of the overlap run. -/
def ex3TrailAttr : PyDict :=
  dictSet (ex3Body3.2.read ex3C.attributes) kLocusTag (.str (tDown ++ toL "C"))

/-- State after the trailing fill `range(20, 1020)`. -/
def ex3Trail : Table × Heap × GffLine :=
  trailingLoop ex3TrailAttr 12 1 (pyRange 20 1020)
    (ex3Body3.1, ex3Body3.2, ex3C)

/-! ### Concrete inputs: the C4 gap-fill example — upstream `+` feature ending
at 100, downstream `+` feature starting at 121 -/

/-- Attributes of the upstream feature. -/
def ex4dUp : PyDict := [(toL "ID", .str (toL "g1")), (kName, .str (toL "g1"))]

/-- Attributes of the downstream feature. -/
def ex4dDown : PyDict := [(toL "ID", .str (toL "g2")), (kName, .str (toL "g2"))]

/-- Heap holding the two dicts at ids 0 and 1. -/
def ex4Heap : Heap := ((Heap.empty.alloc ex4dUp).2.alloc ex4dDown).2

/-- Upstream feature `[90, 100]`, `+` strand. -/
def ex4Up : GffLine :=
  ⟨⟨toL "seqA", toL "src", toL "gene", 90, 100, toL ".", sPlus, toL "."⟩, 0⟩

/-- Downstream feature `[121, 130]`, `+` strand. -/
def ex4Down : GffLine :=
  ⟨⟨toL "seqA", toL "src", toL "gene", 121, 130, toL ".", sPlus, toL "."⟩, 1⟩

/-- Upstream-tagged (`_down-g1`) dict of the gap. -/
def ex4A2 : PyDict := dictSet ex4dUp kLocusTag (.str (tDown ++ toL "g1"))

/-- Downstream-tagged (`_up-g2`) dict of the gap. -/
def ex4A3 : PyDict := dictSet ex4dDown kLocusTag (.str (tUp ++ toL "g2"))

/-- Pre-midpoint half `[101, 110]` of the gap fill. -/
def ex4GapA : Table × Heap :=
  fillFresh ex4Up ex4A2 90 1 (pyRange 101 111) ([], ex4Heap)

/-- Result of `_gapfill_table`: post-midpoint half `[111, 120]`. -/
def ex4Gap : Table × Heap :=
  fillFresh ex4Down ex4A3 121 (-1) (pyRange 111 121) ex4GapA

end Bioino

namespace Bioino

/-! ### Basic lemmas: `pyRange` -/

theorem pyRangeAux_succ (n : Nat) (a : Int) :
    pyRangeAux (n + 1) a = a :: pyRangeAux n (a + 1) := rfl

theorem mem_pyRangeAux {i : Int} :
    ∀ {n : Nat} {a : Int}, i ∈ pyRangeAux n a ↔ a ≤ i ∧ i < a + n
  | 0, a => by
    simp only [pyRangeAux, List.not_mem_nil, false_iff]
    omega
  | n + 1, a => by
    rw [pyRangeAux_succ, List.mem_cons, mem_pyRangeAux (n := n)]
    omega

theorem mem_pyRange {i a b : Int} : i ∈ pyRange a b ↔ a ≤ i ∧ i < b := by
  rw [pyRange, mem_pyRangeAux]
  omega

theorem pyRange_eq_nil {a b : Int} (h : b ≤ a) : pyRange a b = [] := by
  have : (b - a).toNat = 0 := by omega
  rw [pyRange, this]
  rfl

theorem pyRange_eq_cons {a b : Int} (h : a < b) :
    pyRange a b = a :: pyRange (a + 1) b := by
  have h1 : (b - a).toNat = (b - (a + 1)).toNat + 1 := by omega
  rw [pyRange, h1, pyRangeAux_succ, pyRange]

/-! ### Basic lemmas: dicts -/

theorem dictGet?_nil (k' : Str) : dictGet? ([] : PyDict) k' = none := rfl

theorem dictGet?_cons (k0 : Str) (v0 : AttrVal) (rest : PyDict) (k' : Str) :
    dictGet? ((k0, v0) :: rest) k'
      = if k0 = k' then some v0 else dictGet? rest k' := by
  by_cases h : k0 = k' <;> simp [dictGet?, List.find?, h]

theorem dictSet_nil (k : Str) (v : AttrVal) :
    dictSet ([] : PyDict) k v = [(k, v)] := rfl

theorem dictSet_cons (k0 : Str) (v0 : AttrVal) (rest : PyDict) (k : Str)
    (v : AttrVal) :
    dictSet ((k0, v0) :: rest) k v
      = if k0 = k then (k0, v) :: rest else (k0, v0) :: dictSet rest k v := rfl

theorem dictGet?_dictSet (d : PyDict) (k : Str) (v : AttrVal) (k' : Str) :
    dictGet? (dictSet d k v) k' = if k' = k then some v else dictGet? d k' := by
  induction d with
  | nil =>
    rw [dictSet_nil, dictGet?_cons, dictGet?_nil]
    by_cases h : k' = k
    · rw [if_pos h.symm, if_pos h]
    · rw [if_neg (fun he => h he.symm), if_neg h]
  | cons e rest ih =>
    obtain ⟨k0, v0⟩ := e
    rw [dictSet_cons]
    by_cases h0 : k0 = k
    · rw [if_pos h0, dictGet?_cons, dictGet?_cons]
      by_cases h : k0 = k'
      · rw [if_pos h, if_pos h, if_pos (h0 ▸ h.symm)]
      · rw [if_neg h, if_neg h, if_neg (fun he => h (h0.trans he.symm))]
    · rw [if_neg h0, dictGet?_cons, dictGet?_cons]
      by_cases h : k0 = k'
      · rw [if_pos h, if_pos h, if_neg (fun he => h0 (h.trans he))]
      · rw [if_neg h, if_neg h, ih]

theorem dictSet_dictSet_same (d : PyDict) (k : Str) (v v' : AttrVal) :
    dictSet (dictSet d k v) k v' = dictSet d k v' := by
  induction d with
  | nil => rw [dictSet_nil, dictSet_nil, dictSet_cons, if_pos rfl]
  | cons e rest ih =>
    obtain ⟨k0, v0⟩ := e
    rw [dictSet_cons]
    by_cases h0 : k0 = k
    · rw [if_pos h0, dictSet_cons, if_pos h0, dictSet_cons, if_pos h0]
    · rw [if_neg h0, dictSet_cons, if_neg h0, dictSet_cons, if_neg h0, ih]

theorem dictContains_dictSet (d : PyDict) (k : Str) (v : AttrVal) (k' : Str) :
    dictContains (dictSet d k v) k'
      = (if k' = k then true else dictContains d k') := by
  by_cases hk : k' = k <;> simp [dictContains, dictGet?_dictSet, hk]

/-! ### Basic lemmas: the lookup table -/

theorem tableGet_nil (j : Int) : tableGet ([] : Table) j = [] := rfl

theorem tableGet_cons (i0 : Int) (v0 : List GffLine) (rest : Table) (j : Int) :
    tableGet ((i0, v0) :: rest) j
      = if i0 = j then v0 else tableGet rest j := by
  by_cases h : i0 = j <;> simp [tableGet, List.find?, h]

theorem tableSet_nil (i : Int) (v : List GffLine) :
    tableSet ([] : Table) i v = [(i, v)] := rfl

theorem tableSet_cons (i0 : Int) (v0 : List GffLine) (rest : Table) (i : Int)
    (v : List GffLine) :
    tableSet ((i0, v0) :: rest) i v
      = if i0 = i then (i0, v) :: rest else (i0, v0) :: tableSet rest i v := rfl

theorem tableGet_tableSet (t : Table) (i : Int) (v : List GffLine) (j : Int) :
    tableGet (tableSet t i v) j = if j = i then v else tableGet t j := by
  induction t with
  | nil =>
    rw [tableSet_nil, tableGet_cons, tableGet_nil]
    by_cases h : j = i
    · rw [if_pos h.symm, if_pos h]
    · rw [if_neg (fun he => h he.symm), if_neg h]
  | cons e rest ih =>
    obtain ⟨i0, v0⟩ := e
    rw [tableSet_cons]
    by_cases h0 : i0 = i
    · rw [if_pos h0, tableGet_cons, tableGet_cons]
      by_cases h : i0 = j
      · rw [if_pos h, if_pos h, if_pos (h0 ▸ h.symm)]
      · rw [if_neg h, if_neg h, if_neg (fun he => h (h0.trans he.symm))]
    · rw [if_neg h0, tableGet_cons, tableGet_cons]
      by_cases h : i0 = j
      · rw [if_pos h, if_pos h, if_neg (fun he => h0 (h.trans he))]
      · rw [if_neg h, if_neg h, ih]

theorem tableGet_tableAppend (t : Table) (i : Int) (l : GffLine) (j : Int) :
    tableGet (tableAppend t i l) j
      = if j = i then tableGet t i ++ [l] else tableGet t j := by
  rw [tableAppend, tableGet_tableSet]

theorem tableKeys_nil : tableKeys ([] : Table) = [] := rfl

theorem tableKeys_cons (i0 : Int) (v0 : List GffLine) (rest : Table) :
    tableKeys ((i0, v0) :: rest) = i0 :: tableKeys rest := rfl

theorem mem_tableKeys_tableSet (t : Table) (i : Int) (v : List GffLine)
    (j : Int) : j ∈ tableKeys (tableSet t i v) ↔ j ∈ tableKeys t ∨ j = i := by
  induction t with
  | nil =>
    rw [tableSet_nil, tableKeys_cons, tableKeys_nil]
    simp
  | cons e rest ih =>
    obtain ⟨i0, v0⟩ := e
    rw [tableSet_cons]
    by_cases h0 : i0 = i
    · rw [if_pos h0, tableKeys_cons, tableKeys_cons]
      subst h0
      constructor
      · intro h; exact Or.inl h
      · rintro (h | h)
        · exact h
        · rw [h]; exact List.mem_cons_self i0 _
    · rw [if_neg h0, tableKeys_cons, tableKeys_cons, List.mem_cons,
        List.mem_cons, ih]
      tauto

theorem mem_tableKeys_tableAppend (t : Table) (i : Int) (l : GffLine)
    (j : Int) : j ∈ tableKeys (tableAppend t i l) ↔ j ∈ tableKeys t ∨ j = i :=
  mem_tableKeys_tableSet t i _ j

/-- The `foldl max` in `tableMax` dominates its starting point. -/
theorem le_foldl_max (l : List Int) (x : Int) : x ≤ l.foldl max x := by
  induction l generalizing x with
  | nil => simp
  | cons a rest ih =>
    calc x ≤ max x a := le_max_left x a
    _ ≤ rest.foldl max (max x a) := ih (max x a)

theorem mem_le_foldl_max (l : List Int) (x : Int) (j : Int) (hj : j ∈ l) :
    j ≤ l.foldl max x := by
  induction l generalizing x with
  | nil => cases hj
  | cons a rest ih =>
    rcases List.mem_cons.mp hj with h | h
    · subst h
      calc j ≤ max x j := le_max_right x j
      _ ≤ rest.foldl max (max x j) := le_foldl_max rest _
    · exact ih (max x a) h

theorem foldl_max_mem (l : List Int) (x : Int) :
    l.foldl max x = x ∨ l.foldl max x ∈ l := by
  induction l generalizing x with
  | nil => exact Or.inl rfl
  | cons a rest ih =>
    rcases ih (max x a) with h | h
    · rcases max_cases x a with ⟨he, _⟩ | ⟨he, _⟩
      · rw [List.foldl_cons, h, he]; exact Or.inl rfl
      · rw [List.foldl_cons, h, he]; exact Or.inr (List.mem_cons_self a rest)
    · exact Or.inr (List.mem_cons_of_mem a h)

/-- Every key is bounded by `tableMax`. -/
theorem le_tableMax (t : Table) (j : Int) (hj : j ∈ tableKeys t) :
    j ≤ tableMax t := by
  cases hk : tableKeys t with
  | nil => rw [hk] at hj; cases hj
  | cons k ks =>
    have hmax : tableMax t = ks.foldl max k := by unfold tableMax; rw [hk]
    rw [hk] at hj
    rw [hmax]
    rcases List.mem_cons.mp hj with h | h
    · subst h; exact le_foldl_max ks j
    · exact mem_le_foldl_max ks k j h

/-- `tableMax` is one of the keys (when any exist). -/
theorem tableMax_mem (t : Table) (h : tableKeys t ≠ []) :
    tableMax t ∈ tableKeys t := by
  cases hk : tableKeys t with
  | nil => exact absurd hk h
  | cons k ks =>
    have hmax : tableMax t = ks.foldl max k := by unfold tableMax; rw [hk]
    rw [hmax]
    rcases foldl_max_mem ks k with h1 | h1
    · rw [h1]; exact List.mem_cons_self k ks
    · exact List.mem_cons_of_mem k h1

/-! ### Basic lemmas: the heap -/

theorem Heap.read_write_self (h : Heap) (i : Nat) (d : PyDict) :
    (h.write i d).read i = d := by
  simp [Heap.write, Heap.read, List.find?]

theorem Heap.read_write_ne (h : Heap) (i : Nat) (d : PyDict) (j : Nat)
    (hne : j ≠ i) : (h.write i d).read j = h.read j := by
  have : (decide (i = j)) = false := by
    simp only [decide_eq_false_iff_not]
    exact fun he => hne he.symm
  simp [Heap.write, Heap.read, List.find?, this]

theorem Heap.read_alloc_ne (h : Heap) (d : PyDict) (j : Nat)
    (hne : j ≠ h.next) : (h.alloc d).2.read j = h.read j := by
  have : (decide (h.next = j)) = false := by
    simp only [decide_eq_false_iff_not]
    exact fun he => hne he.symm
  simp [Heap.alloc, Heap.read, List.find?, this]

theorem Heap.read_alloc_self (h : Heap) (d : PyDict) :
    (h.alloc d).2.read (h.alloc d).1 = d := by
  simp [Heap.alloc, Heap.read, List.find?]

theorem Heap.alloc_next (h : Heap) (d : PyDict) :
    (h.alloc d).2.next = h.next + 1 := rfl

theorem Heap.write_next (h : Heap) (i : Nat) (d : PyDict) :
    (h.write i d).next = h.next := rfl

/-! ### Characterization of `fillFresh` (the gap-filling loops) -/

theorem fillFresh_nil (base : GffLine) (battr : PyDict) (ref sign : Int)
    (th : Table × Heap) : fillFresh base battr ref sign [] th = th := rfl

theorem fillFresh_cons (base : GffLine) (battr : PyDict) (ref sign i : Int)
    (rest : List Int) (t : Table) (h : Heap) :
    fillFresh base battr ref sign (i :: rest) (t, h)
      = fillFresh base battr ref sign rest
          (tableAppend t i ⟨base.columns, h.next⟩,
           (h.alloc (dictSet battr kOffset (.int ((i - ref) * sign)))).2) := rfl

theorem fillFresh_next (base : GffLine) (battr : PyDict) (ref sign : Int) :
    ∀ (n : Nat) (a : Int) (th : Table × Heap),
      (fillFresh base battr ref sign (pyRangeAux n a) th).2.next
        = th.2.next + n
  | 0, _, _ => rfl
  | n + 1, a, th => by
    obtain ⟨t, h⟩ := th
    rw [pyRangeAux_succ, fillFresh_cons,
      fillFresh_next base battr ref sign n (a + 1) _]
    show (h.alloc _).2.next + n = h.next + (n + 1)
    rw [Heap.alloc_next]
    omega

theorem fillFresh_read_old (base : GffLine) (battr : PyDict) (ref sign : Int) :
    ∀ (n : Nat) (a : Int) (th : Table × Heap) (id : Nat), id < th.2.next →
      (fillFresh base battr ref sign (pyRangeAux n a) th).2.read id
        = th.2.read id
  | 0, _, _, _, _ => rfl
  | n + 1, a, th, id, hid => by
    obtain ⟨t, h⟩ := th
    have hid' : id < h.next := hid
    rw [pyRangeAux_succ, fillFresh_cons,
      fillFresh_read_old base battr ref sign n (a + 1) _ id
        (by show id < (h.alloc _).2.next; rw [Heap.alloc_next]; omega)]
    show (h.alloc _).2.read id = h.read id
    rw [Heap.read_alloc_ne]
    omega

theorem fillFresh_read_new (base : GffLine) (battr : PyDict) (ref sign : Int) :
    ∀ (n : Nat) (a : Int) (th : Table × Heap) (k : Nat), k < n →
      (fillFresh base battr ref sign (pyRangeAux n a) th).2.read (th.2.next + k)
        = dictSet battr kOffset (.int ((a + k - ref) * sign))
  | 0, _, _, _, hk => absurd hk (by omega)
  | n + 1, a, th, k, hk => by
    obtain ⟨t, h⟩ := th
    rw [pyRangeAux_succ, fillFresh_cons]
    cases k with
    | zero =>
      rw [fillFresh_read_old base battr ref sign n (a + 1) _ (h.next + 0)
        (by show h.next + 0 < (h.alloc _).2.next; rw [Heap.alloc_next]; omega)]
      show (h.alloc _).2.read (h.next + 0) = _
      have he : h.next + 0 = (h.alloc (dictSet battr kOffset
          (.int ((a - ref) * sign)))).1 := rfl
      rw [he, Heap.read_alloc_self]
      norm_num
    | succ k' =>
      have harith : (⟨t, h⟩ : Table × Heap).2.next + (k' + 1)
          = (tableAppend t a ⟨base.columns, h.next⟩,
             (h.alloc (dictSet battr kOffset
               (.int ((a - ref) * sign)))).2).2.next + k' := by
        show h.next + (k' + 1) = (h.alloc _).2.next + k'
        rw [Heap.alloc_next]; omega
      rw [harith, fillFresh_read_new base battr ref sign n (a + 1) _ k'
        (by omega)]
      have he : (a + 1 + (k' : Int) - ref) = (a + ((k' + 1 : Nat) : Int) - ref) := by
        push_cast; ring
      rw [he]

theorem fillFresh_get_out (base : GffLine) (battr : PyDict) (ref sign : Int) :
    ∀ (n : Nat) (a : Int) (th : Table × Heap) (i : Int),
      (i < a ∨ a + n ≤ i) →
      tableGet (fillFresh base battr ref sign (pyRangeAux n a) th).1 i
        = tableGet th.1 i
  | 0, _, _, _, _ => rfl
  | n + 1, a, th, i, hi => by
    obtain ⟨t, h⟩ := th
    rw [pyRangeAux_succ, fillFresh_cons,
      fillFresh_get_out base battr ref sign n (a + 1) _ i
        (by push_cast at hi ⊢; omega)]
    show tableGet (tableAppend t a ⟨base.columns, h.next⟩) i = tableGet t i
    rw [tableGet_tableAppend, if_neg (by omega : ¬ i = a)]

theorem fillFresh_get_in (base : GffLine) (battr : PyDict) (ref sign : Int) :
    ∀ (n : Nat) (a : Int) (th : Table × Heap) (k : Nat), k < n →
      tableGet (fillFresh base battr ref sign (pyRangeAux n a) th).1 (a + k)
        = tableGet th.1 (a + k) ++ [⟨base.columns, th.2.next + k⟩]
  | 0, _, _, _, hk => absurd hk (by omega)
  | n + 1, a, th, k, hk => by
    obtain ⟨t, h⟩ := th
    rw [pyRangeAux_succ, fillFresh_cons]
    cases k with
    | zero =>
      rw [fillFresh_get_out base battr ref sign n (a + 1) _ (a + (0 : Nat))
          (by push_cast; omega)]
      show tableGet (tableAppend t a ⟨base.columns, h.next⟩) (a + ((0 : Nat) : Int))
        = _
      rw [tableGet_tableAppend,
        if_pos (by push_cast; omega : a + ((0 : Nat) : Int) = a)]
      norm_num
    | succ k' =>
      have harith : a + ((k' + 1 : Nat) : Int) = (a + 1) + (k' : Nat) := by
        push_cast; ring
      have hid : (⟨t, h⟩ : Table × Heap).2.next + (k' + 1)
          = (tableAppend t a ⟨base.columns, h.next⟩,
             (h.alloc (dictSet battr kOffset
               (.int ((a - ref) * sign)))).2).2.next + k' := by
        show h.next + (k' + 1) = (h.alloc _).2.next + k'
        rw [Heap.alloc_next]; omega
      rw [harith, hid, fillFresh_get_in base battr ref sign n (a + 1) _ k'
        (by omega)]
      show (tableGet (tableAppend t a ⟨base.columns, h.next⟩) ((a + 1) + (k' : Int)))
          ++ _ = _
      rw [tableGet_tableAppend, if_neg (by omega : ¬ (a + 1) + (k' : Int) = a)]

theorem fillFresh_keys (base : GffLine) (battr : PyDict) (ref sign : Int) :
    ∀ (n : Nat) (a : Int) (th : Table × Heap) (i : Int),
      i ∈ tableKeys (fillFresh base battr ref sign (pyRangeAux n a) th).1
        ↔ i ∈ tableKeys th.1 ∨ (a ≤ i ∧ i < a + n)
  | 0, a, th, i => by
    show i ∈ tableKeys th.1 ↔ _
    constructor
    · exact fun hm => Or.inl hm
    · rintro (hm | hm)
      · exact hm
      · omega
  | n + 1, a, th, i => by
    obtain ⟨t, h⟩ := th
    rw [pyRangeAux_succ, fillFresh_cons,
      fillFresh_keys base battr ref sign n (a + 1) _ i]
    show i ∈ tableKeys (tableAppend t a ⟨base.columns, h.next⟩) ∨ _ ↔ _
    rw [mem_tableKeys_tableAppend]
    constructor
    · rintro ((hm | rfl) | hm)
      · exact Or.inl hm
      · exact Or.inr (by omega)
      · exact Or.inr (by push_cast at hm ⊢; omega)
    · rintro (hm | hm)
      · exact Or.inl (Or.inl hm)
      · by_cases hia : i = a
        · exact Or.inl (Or.inr hia)
        · exact Or.inr (by push_cast at hm ⊢; omega)

/-! ### Characterization of `fillShared` (the feature-body loop) -/

theorem fillShared_nil (g : GffLine) (r : Int) (th : Table × Heap) :
    fillShared g r [] th = th := rfl

theorem fillShared_cons (g : GffLine) (r i : Int) (rest : List Int)
    (t : Table) (h : Heap) :
    fillShared g r (i :: rest) (t, h)
      = fillShared g r rest
          (tableAppend t i g,
           h.write g.attributes
             (dictSet (h.read g.attributes) kOffset (.int |i - r|))) := rfl

theorem fillShared_next (g : GffLine) (r : Int) :
    ∀ (n : Nat) (a : Int) (th : Table × Heap),
      (fillShared g r (pyRangeAux n a) th).2.next = th.2.next
  | 0, _, _ => rfl
  | n + 1, a, th => by
    obtain ⟨t, h⟩ := th
    rw [pyRangeAux_succ, fillShared_cons, fillShared_next g r n (a + 1) _]
    show (h.write _ _).next = h.next
    rw [Heap.write_next]

theorem fillShared_read_ne (g : GffLine) (r : Int) :
    ∀ (n : Nat) (a : Int) (th : Table × Heap) (id : Nat),
      id ≠ g.attributes →
      (fillShared g r (pyRangeAux n a) th).2.read id = th.2.read id
  | 0, _, _, _, _ => rfl
  | n + 1, a, th, id, hid => by
    obtain ⟨t, h⟩ := th
    rw [pyRangeAux_succ, fillShared_cons,
      fillShared_read_ne g r n (a + 1) _ id hid]
    show (h.write _ _).read id = h.read id
    rw [Heap.read_write_ne _ _ _ _ hid]

theorem fillShared_read_shared (g : GffLine) (r : Int) :
    ∀ (n : Nat) (a : Int) (th : Table × Heap), 0 < n →
      (fillShared g r (pyRangeAux n a) th).2.read g.attributes
        = dictSet (th.2.read g.attributes) kOffset
            (.int |a + ((n - 1 : Nat) : Int) - r|)
  | 0, _, _, hn => absurd hn (by omega)
  | n + 1, a, th, _ => by
    obtain ⟨t, h⟩ := th
    rw [pyRangeAux_succ, fillShared_cons]
    cases n with
    | zero =>
      rw [show pyRangeAux 0 (a + 1) = [] from rfl, fillShared_nil]
      show (h.write _ _).read g.attributes = _
      rw [Heap.read_write_self]
      norm_num
    | succ n' =>
      rw [fillShared_read_shared g r (n' + 1) (a + 1) _ (by omega)]
      show dictSet ((h.write _ _).read g.attributes) kOffset _ = _
      rw [Heap.read_write_self, dictSet_dictSet_same]
      have he : (a + 1 + ((n' + 1 - 1 : Nat) : Int) - r)
          = (a + ((n' + 1 + 1 - 1 : Nat) : Int) - r) := by
        push_cast; ring
      rw [he]

theorem fillShared_get_out (g : GffLine) (r : Int) :
    ∀ (n : Nat) (a : Int) (th : Table × Heap) (i : Int),
      (i < a ∨ a + n ≤ i) →
      tableGet (fillShared g r (pyRangeAux n a) th).1 i = tableGet th.1 i
  | 0, _, _, _, _ => rfl
  | n + 1, a, th, i, hi => by
    obtain ⟨t, h⟩ := th
    rw [pyRangeAux_succ, fillShared_cons,
      fillShared_get_out g r n (a + 1) _ i (by push_cast at hi ⊢; omega)]
    show tableGet (tableAppend t a g) i = tableGet t i
    rw [tableGet_tableAppend, if_neg (by omega : ¬ i = a)]

theorem fillShared_get_in (g : GffLine) (r : Int) :
    ∀ (n : Nat) (a : Int) (th : Table × Heap) (k : Nat), k < n →
      tableGet (fillShared g r (pyRangeAux n a) th).1 (a + k)
        = tableGet th.1 (a + k) ++ [g]
  | 0, _, _, _, hk => absurd hk (by omega)
  | n + 1, a, th, k, hk => by
    obtain ⟨t, h⟩ := th
    rw [pyRangeAux_succ, fillShared_cons]
    cases k with
    | zero =>
      rw [fillShared_get_out g r n (a + 1) _ (a + (0 : Nat))
          (by push_cast; omega)]
      show tableGet (tableAppend t a g) (a + ((0 : Nat) : Int)) = _
      rw [tableGet_tableAppend,
        if_pos (by push_cast; omega : a + ((0 : Nat) : Int) = a)]
      norm_num
    | succ k' =>
      have harith : a + ((k' + 1 : Nat) : Int) = (a + 1) + (k' : Nat) := by
        push_cast; ring
      rw [harith, fillShared_get_in g r n (a + 1) _ k' (by omega)]
      show tableGet (tableAppend t a g) ((a + 1) + (k' : Int)) ++ _ = _
      rw [tableGet_tableAppend, if_neg (by omega : ¬ (a + 1) + (k' : Int) = a)]

theorem fillShared_keys (g : GffLine) (r : Int) :
    ∀ (n : Nat) (a : Int) (th : Table × Heap) (i : Int),
      i ∈ tableKeys (fillShared g r (pyRangeAux n a) th).1
        ↔ i ∈ tableKeys th.1 ∨ (a ≤ i ∧ i < a + n)
  | 0, a, th, i => by
    show i ∈ tableKeys th.1 ↔ _
    constructor
    · exact fun hm => Or.inl hm
    · rintro (hm | hm)
      · exact hm
      · omega
  | n + 1, a, th, i => by
    obtain ⟨t, h⟩ := th
    rw [pyRangeAux_succ, fillShared_cons, fillShared_keys g r n (a + 1) _ i]
    show i ∈ tableKeys (tableAppend t a g) ∨ _ ↔ _
    rw [mem_tableKeys_tableAppend]
    constructor
    · rintro ((hm | rfl) | hm)
      · exact Or.inl hm
      · exact Or.inr (by omega)
      · exact Or.inr (by push_cast at hm ⊢; omega)
    · rintro (hm | hm)
      · exact Or.inl (Or.inl hm)
      · by_cases hia : i = a
        · exact Or.inl (Or.inr hia)
        · exact Or.inr (by push_cast at hm ⊢; omega)

/-! ### Characterization of `trailingLoop` -/

theorem trailingLoop_nil (attr : PyDict) (ref sign : Int)
    (acc : Table × Heap × GffLine) : trailingLoop attr ref sign [] acc = acc :=
  rfl

theorem trailingLoop_cons (attr : PyDict) (ref sign i : Int)
    (rest : List Int) (t : Table) (h : Heap) (lf : GffLine) :
    trailingLoop attr ref sign (i :: rest) (t, h, lf)
      = trailingLoop attr ref sign rest
          (tableAppend t i ⟨lf.columns, h.next⟩,
           (h.alloc (dictSet attr kOffset (.int ((i - ref) * sign)))).2,
           ⟨lf.columns, h.next⟩) := rfl

theorem trailingLoop_next (attr : PyDict) (ref sign : Int) :
    ∀ (n : Nat) (a : Int) (acc : Table × Heap × GffLine),
      (trailingLoop attr ref sign (pyRangeAux n a) acc).2.1.next
        = acc.2.1.next + n
  | 0, _, _ => rfl
  | n + 1, a, acc => by
    obtain ⟨t, h, lf⟩ := acc
    rw [pyRangeAux_succ, trailingLoop_cons,
      trailingLoop_next attr ref sign n (a + 1) _]
    show (h.alloc _).2.next + n = h.next + (n + 1)
    rw [Heap.alloc_next]
    omega

theorem trailingLoop_read_old (attr : PyDict) (ref sign : Int) :
    ∀ (n : Nat) (a : Int) (acc : Table × Heap × GffLine) (id : Nat),
      id < acc.2.1.next →
      (trailingLoop attr ref sign (pyRangeAux n a) acc).2.1.read id
        = acc.2.1.read id
  | 0, _, _, _, _ => rfl
  | n + 1, a, acc, id, hid => by
    obtain ⟨t, h, lf⟩ := acc
    have hid' : id < h.next := hid
    rw [pyRangeAux_succ, trailingLoop_cons,
      trailingLoop_read_old attr ref sign n (a + 1) _ id
        (by show id < (h.alloc _).2.next; rw [Heap.alloc_next]; omega)]
    show (h.alloc _).2.read id = h.read id
    rw [Heap.read_alloc_ne]
    omega

theorem trailingLoop_get_out (attr : PyDict) (ref sign : Int) :
    ∀ (n : Nat) (a : Int) (acc : Table × Heap × GffLine) (i : Int),
      (i < a ∨ a + n ≤ i) →
      tableGet (trailingLoop attr ref sign (pyRangeAux n a) acc).1 i
        = tableGet acc.1 i
  | 0, _, _, _, _ => rfl
  | n + 1, a, acc, i, hi => by
    obtain ⟨t, h, lf⟩ := acc
    rw [pyRangeAux_succ, trailingLoop_cons,
      trailingLoop_get_out attr ref sign n (a + 1) _ i
        (by push_cast at hi ⊢; omega)]
    show tableGet (tableAppend t a ⟨lf.columns, h.next⟩) i = tableGet t i
    rw [tableGet_tableAppend, if_neg (by omega : ¬ i = a)]

theorem trailingLoop_get_in (attr : PyDict) (ref sign : Int) :
    ∀ (n : Nat) (a : Int) (acc : Table × Heap × GffLine) (k : Nat),
      k < n →
      tableGet (trailingLoop attr ref sign (pyRangeAux n a) acc).1 (a + k)
        = tableGet acc.1 (a + k) ++ [⟨acc.2.2.columns, acc.2.1.next + k⟩]
  | 0, _, _, _, hk => absurd hk (by omega)
  | n + 1, a, acc, k, hk => by
    obtain ⟨t, h, lf⟩ := acc
    rw [pyRangeAux_succ, trailingLoop_cons]
    cases k with
    | zero =>
      rw [trailingLoop_get_out attr ref sign n (a + 1) _ (a + (0 : Nat))
          (by push_cast; omega)]
      show tableGet (tableAppend t a ⟨lf.columns, h.next⟩) (a + ((0 : Nat) : Int))
        = _
      rw [tableGet_tableAppend,
        if_pos (by push_cast; omega : a + ((0 : Nat) : Int) = a)]
      norm_num
    | succ k' =>
      have harith : a + ((k' + 1 : Nat) : Int) = (a + 1) + (k' : Nat) := by
        push_cast; ring
      have hid : (⟨t, h, lf⟩ : Table × Heap × GffLine).2.1.next + (k' + 1)
          = (tableAppend t a ⟨lf.columns, h.next⟩,
             (h.alloc (dictSet attr kOffset (.int ((a - ref) * sign)))).2,
             (⟨lf.columns, h.next⟩ : GffLine)).2.1.next + k' := by
        show h.next + (k' + 1) = (h.alloc _).2.next + k'
        rw [Heap.alloc_next]; omega
      rw [harith, hid, trailingLoop_get_in attr ref sign n (a + 1) _ k'
        (by omega)]
      show tableGet (tableAppend t a ⟨lf.columns, h.next⟩) ((a + 1) + (k' : Int))
          ++ _ = _
      rw [tableGet_tableAppend, if_neg (by omega : ¬ (a + 1) + (k' : Int) = a)]

theorem trailingLoop_read_new (attr : PyDict) (ref sign : Int) :
    ∀ (n : Nat) (a : Int) (acc : Table × Heap × GffLine) (k : Nat),
      k < n →
      (trailingLoop attr ref sign (pyRangeAux n a) acc).2.1.read
          (acc.2.1.next + k)
        = dictSet attr kOffset (.int ((a + k - ref) * sign))
  | 0, _, _, _, hk => absurd hk (by omega)
  | n + 1, a, acc, k, hk => by
    obtain ⟨t, h, lf⟩ := acc
    rw [pyRangeAux_succ, trailingLoop_cons]
    cases k with
    | zero =>
      rw [trailingLoop_read_old attr ref sign n (a + 1) _ (h.next + 0)
        (by show h.next + 0 < (h.alloc _).2.next; rw [Heap.alloc_next]; omega)]
      show (h.alloc _).2.read (h.next + 0) = _
      have he : h.next + 0 = (h.alloc (dictSet attr kOffset
          (.int ((a - ref) * sign)))).1 := rfl
      rw [he, Heap.read_alloc_self]
      norm_num
    | succ k' =>
      have harith : (⟨t, h, lf⟩ : Table × Heap × GffLine).2.1.next + (k' + 1)
          = (tableAppend t a ⟨lf.columns, h.next⟩,
             (h.alloc (dictSet attr kOffset (.int ((a - ref) * sign)))).2,
             (⟨lf.columns, h.next⟩ : GffLine)).2.1.next + k' := by
        show h.next + (k' + 1) = (h.alloc _).2.next + k'
        rw [Heap.alloc_next]; omega
      rw [harith, trailingLoop_read_new attr ref sign n (a + 1) _ k'
        (by omega)]
      have he : (a + 1 + (k' : Int) - ref) = (a + ((k' + 1 : Nat) : Int) - ref) := by
        push_cast; ring
      rw [he]

theorem trailingLoop_keys (attr : PyDict) (ref sign : Int) :
    ∀ (n : Nat) (a : Int) (acc : Table × Heap × GffLine) (i : Int),
      i ∈ tableKeys (trailingLoop attr ref sign (pyRangeAux n a) acc).1
        ↔ i ∈ tableKeys acc.1 ∨ (a ≤ i ∧ i < a + n)
  | 0, a, acc, i => by
    show i ∈ tableKeys acc.1 ↔ _
    constructor
    · exact fun hm => Or.inl hm
    · rintro (hm | hm)
      · exact hm
      · omega
  | n + 1, a, acc, i => by
    obtain ⟨t, h, lf⟩ := acc
    rw [pyRangeAux_succ, trailingLoop_cons,
      trailingLoop_keys attr ref sign n (a + 1) _ i]
    show i ∈ tableKeys (tableAppend t a ⟨lf.columns, h.next⟩) ∨ _ ↔ _
    rw [mem_tableKeys_tableAppend]
    constructor
    · rintro ((hm | rfl) | hm)
      · exact Or.inl hm
      · exact Or.inr (by omega)
      · exact Or.inr (by push_cast at hm ⊢; omega)
    · rintro (hm | hm)
      · exact Or.inl (Or.inl hm)
      · by_cases hia : i = a
        · exact Or.inl (Or.inr hia)
        · exact Or.inr (by push_cast at hm ⊢; omega)

/-! ### `tableUpdate`, key nodup preservation, and validation lemmas -/

theorem tableKeys_tableSet_eq (t : Table) (i : Int) (v : List GffLine) :
    tableKeys (tableSet t i v)
      = if i ∈ tableKeys t then tableKeys t else tableKeys t ++ [i] := by
  induction t with
  | nil => simp [tableSet_nil, tableKeys_cons, tableKeys_nil]
  | cons e rest ih =>
    obtain ⟨i0, v0⟩ := e
    rw [tableSet_cons]
    by_cases h0 : i0 = i
    · rw [if_pos h0, tableKeys_cons, tableKeys_cons,
        if_pos (h0 ▸ List.mem_cons_self i0 (tableKeys rest))]
    · rw [if_neg h0, tableKeys_cons, tableKeys_cons, ih]
      by_cases hm : i ∈ tableKeys rest
      · rw [if_pos hm, if_pos (List.mem_cons_of_mem i0 hm)]
      · rw [if_neg hm,
          if_neg (by
            rw [List.mem_cons]
            rintro (he | he)
            · exact h0 he.symm
            · exact hm he),
          List.cons_append]

theorem tableKeys_tableSet_nodup (t : Table) (i : Int) (v : List GffLine)
    (hnd : (tableKeys t).Nodup) : (tableKeys (tableSet t i v)).Nodup := by
  rw [tableKeys_tableSet_eq]
  by_cases hm : i ∈ tableKeys t
  · rw [if_pos hm]; exact hnd
  · rw [if_neg hm]
    have : tableKeys t ++ [i] = (tableKeys t).concat i := by
      rw [List.concat_eq_append]
    rw [this, List.concat_eq_append]
    exact List.Nodup.append hnd (List.nodup_singleton i)
      (by
        intro a ha hb
        rw [List.mem_singleton] at hb
        exact hm (hb ▸ ha))

theorem fillFresh_keys_nodup (base : GffLine) (battr : PyDict)
    (ref sign : Int) :
    ∀ (is : List Int) (th : Table × Heap), (tableKeys th.1).Nodup →
      (tableKeys (fillFresh base battr ref sign is th).1).Nodup
  | [], _, hnd => hnd
  | i :: rest, th, hnd => by
    obtain ⟨t, h⟩ := th
    rw [fillFresh_cons]
    exact fillFresh_keys_nodup base battr ref sign rest _
      (tableKeys_tableSet_nodup _ _ _ hnd)

/-- `dict.update` pointwise: keys of the update argument replace wholesale. -/
theorem tableGet_tableUpdate (gap : Table) (t : Table) (i : Int)
    (hnd : (tableKeys gap).Nodup) :
    tableGet (tableUpdate t gap) i
      = if i ∈ tableKeys gap then tableGet gap i else tableGet t i := by
  induction gap generalizing t with
  | nil => rw [tableUpdate, List.foldl_nil, tableKeys_nil, if_neg (by simp)]
  | cons e rest ih =>
    obtain ⟨k, v⟩ := e
    rw [tableKeys_cons] at hnd ⊢
    have hk : k ∉ tableKeys rest := (List.nodup_cons.mp hnd).1
    have hnd' : (tableKeys rest).Nodup := (List.nodup_cons.mp hnd).2
    have hstep : tableUpdate t ((k, v) :: rest)
        = tableUpdate (tableSet t k v) rest := by
      rw [tableUpdate, tableUpdate, List.foldl_cons]
    rw [hstep, ih _ hnd', tableGet_cons]
    by_cases hm : i ∈ tableKeys rest
    · have hki : ¬ k = i := fun he => hk (he ▸ hm)
      rw [if_pos hm, if_pos (List.mem_cons_of_mem k hm), if_neg hki]
    · rw [if_neg hm, tableGet_tableSet]
      by_cases hik : i = k
      · rw [if_pos hik, if_pos (by rw [hik]; exact List.mem_cons_self k _),
          if_pos hik.symm]
      · rw [if_neg hik,
          if_neg (by
            rw [List.mem_cons]
            rintro (he | he)
            · exact hik he
            · exact hm he)]

theorem mem_tableKeys_tableUpdate (gap : Table) (t : Table) (i : Int) :
    i ∈ tableKeys (tableUpdate t gap)
      ↔ i ∈ tableKeys t ∨ i ∈ tableKeys gap := by
  induction gap generalizing t with
  | nil =>
    rw [tableUpdate, List.foldl_nil, tableKeys_nil]
    simp
  | cons e rest ih =>
    obtain ⟨k, v⟩ := e
    have hstep : tableUpdate t ((k, v) :: rest)
        = tableUpdate (tableSet t k v) rest := by
      rw [tableUpdate, tableUpdate, List.foldl_cons]
    rw [hstep, ih, mem_tableKeys_tableSet, tableKeys_cons, List.mem_cons]
    tauto

/-- When the table is covered on `[1, max]`, validation succeeds and returns
its input unchanged. -/
theorem lookupValidate_ok (th : Table × Heap)
    (hcov : ∀ i : Int, 1 ≤ i → i ≤ tableMax th.1 → tableGet th.1 i ≠ []) :
    lookupValidate th = .ok th := by
  unfold lookupValidate
  have hfil : (pyRange 1 (tableMax th.1 + 1)).filter
      (fun i => (tableGet th.1 i).isEmpty) = [] := by
    rw [List.filter_eq_nil_iff]
    intro i hi
    have hm := mem_pyRange.mp hi
    have := hcov i hm.1 (by omega)
    simpa [List.isEmpty_iff] using this
  rw [hfil]
  rfl

/-- Conversely, a successful validation pins the output to the input and
yields coverage of `[1, max]`. -/
theorem lookupValidate_ok_inv (th th' : Table × Heap)
    (heq : lookupValidate th = .ok th') :
    th' = th
      ∧ ∀ i : Int, 1 ≤ i → i ≤ tableMax th.1 → tableGet th.1 i ≠ [] := by
  unfold lookupValidate at heq
  by_cases hfil : ((pyRange 1 (tableMax th.1 + 1)).filter
      (fun i => (tableGet th.1 i).isEmpty)).isEmpty
  · rw [if_pos hfil] at heq
    refine ⟨(Except.ok.injEq _ _ ▸ heq).symm, ?_⟩
    intro i h1 h2
    rw [List.isEmpty_iff] at hfil
    have := List.filter_eq_nil_iff.mp hfil i (mem_pyRange.mpr ⟨h1, by omega⟩)
    simpa [List.isEmpty_iff] using this
  · rw [if_neg hfil] at heq
    cases heq

/-- A successful `_lookup_table` run implies coverage of `[1, max]`: the
validation step admits no missing coordinate. -/
theorem _lookup_table_ok_inv (heap : Heap) (lines : List GffLine)
    (t : Table) (h : Heap) (heq : _lookup_table heap lines = .ok (t, h)) :
    ∀ i : Int, 1 ≤ i → i ≤ tableMax t → tableGet t i ≠ [] := by
  unfold _lookup_table at heq
  cases hm : lookupFold heap lines with
  | error e => rw [hm] at heq; cases heq
  | ok s =>
    obtain ⟨t1, h1, lf?⟩ := s
    rw [hm] at heq
    cases lf? with
    | none => cases heq
    | some lf =>
      dsimp only at heq
      cases ht : lookupTrailing t1 h1 lf with
      | error e => rw [ht] at heq; cases heq
      | ok th2 =>
        rw [ht] at heq
        dsimp only at heq
        obtain ⟨he1, hcov⟩ := lookupValidate_ok_inv th2 (t, h) heq
        have ht1 : t = th2.1 := by rw [← he1]
        intro i h1 h2
        rw [ht1] at h2 ⊢
        exact hcov i h1 h2

/-- Unfolding of `lookupTrailing` on a `+`-strand `last_feature` whose dict
has a string `Name`. -/
theorem lookupTrailing_plus (t : Table) (h : Heap) (lf : GffLine) (nm : Str)
    (hs : lf.columns.strand = sPlus)
    (hname : dictGet? (h.read lf.attributes) kName = some (.str nm)) :
    lookupTrailing t h lf
      = .ok ((trailingLoop
            (dictSet (h.read lf.attributes) kLocusTag (.str (tDown ++ nm)))
            lf.columns.start 1
            (pyRange lf.columns.end_ (lf.columns.end_ + 1000)) (t, h, lf)).1,
          (trailingLoop
            (dictSet (h.read lf.attributes) kLocusTag (.str (tDown ++ nm)))
            lf.columns.start 1
            (pyRange lf.columns.end_ (lf.columns.end_ + 1000)) (t, h, lf)).2.1) := by
  unfold lookupTrailing
  rw [if_pos hs, hname]
  rfl

/-- A coordinate that is not a key reads as `[]`. -/
theorem tableGet_eq_nil_of_not_mem_keys (t : Table) (i : Int)
    (h : i ∉ tableKeys t) : tableGet t i = [] := by
  induction t with
  | nil => rfl
  | cons e rest ih =>
    obtain ⟨i0, v0⟩ := e
    rw [tableKeys_cons, List.mem_cons] at h
    rw [tableGet_cons, if_neg (fun he => h (Or.inl he.symm))]
    exact ih (fun hm => h (Or.inr hm))

/-! ### Facts about the single-feature run (example 1) -/

set_option maxRecDepth 8000

theorem ex1_fold :
    lookupFold ex1Heap [ex1Line] = .ok (ex1Body.1, ex1Body.2, some ex1Line) :=
  rfl

theorem ex1_gap_read : ex1Gap.2.read 0 = ex1Dict := by
  show (fillFresh ex1Line ex1Attr0 100 (-1) (pyRangeAux 49 51) ex1GapA).2.read 0
      = _
  rw [fillFresh_read_old ex1Line ex1Attr0 100 (-1) 49 51 ex1GapA 0
      (by
        show 0 < (fillFresh ex1Line ex1Attr0 100 1 (pyRangeAux 50 1)
          ([], ex1Heap)).2.next
        rw [fillFresh_next]
        omega)]
  show (fillFresh ex1Line ex1Attr0 100 1 (pyRangeAux 50 1)
      ([], ex1Heap)).2.read 0 = _
  rw [fillFresh_read_old ex1Line ex1Attr0 100 1 50 1 ([], ex1Heap) 0
    (by decide)]
  rfl

theorem ex1_body_read : ex1Body.2.read ex1Line.attributes
    = dictSet ex1Dict kOffset (.int 100) := by
  show (fillShared ex1Line 100 (pyRangeAux 101 100)
      (tableUpdate [] ex1Gap.1, ex1Gap.2)).2.read ex1Line.attributes = _
  rw [fillShared_read_shared ex1Line 100 101 100 _ (by omega)]
  dsimp only
  rw [show ex1Line.attributes = (0 : Nat) from rfl, ex1_gap_read]
  norm_num

theorem ex1_body_name :
    dictGet? (ex1Body.2.read ex1Line.attributes) kName
      = some (.str (toL "g1")) := by
  rw [ex1_body_read, dictGet?_dictSet, if_neg (by decide)]
  decide

theorem ex1_trailing :
    lookupTrailing ex1Body.1 ex1Body.2 ex1Line = .ok (ex1Trail.1, ex1Trail.2.1) := by
  rw [lookupTrailing_plus ex1Body.1 ex1Body.2 ex1Line (toL "g1") rfl
      ex1_body_name,
    show dictSet (ex1Body.2.read ex1Line.attributes) kLocusTag
      (.str (tDown ++ toL "g1")) = ex1TrailAttr from rfl,
    show ex1Line.columns.start = (100 : Int) from rfl,
    show ex1Line.columns.end_ = (200 : Int) from rfl,
    show (200 : Int) + 1000 = 1200 from rfl]
  rfl

theorem ex1_gap_mem_keys (i : Int) :
    i ∈ tableKeys ex1Gap.1 ↔ 1 ≤ i ∧ i < 100 := by
  rw [show ex1Gap.1 = (fillFresh ex1Line ex1Attr0 100 (-1) (pyRangeAux 49 51)
      ex1GapA).1 from rfl,
    fillFresh_keys,
    show ex1GapA.1 = (fillFresh ex1Line ex1Attr0 100 1 (pyRangeAux 50 1)
      ([], ex1Heap)).1 from rfl,
    fillFresh_keys]
  dsimp only
  simp only [tableKeys_nil, List.not_mem_nil, false_or]
  push_cast
  omega

theorem ex1_keys (i : Int) : i ∈ tableKeys ex1Trail.1 ↔ 1 ≤ i ∧ i ≤ 1199 := by
  show i ∈ tableKeys (trailingLoop ex1TrailAttr 100 1 (pyRangeAux 1000 200)
      (ex1Body.1, ex1Body.2, ex1Line)).1 ↔ _
  rw [trailingLoop_keys]
  dsimp only
  rw [show ex1Body.1 = (fillShared ex1Line 100 (pyRangeAux 101 100)
      (tableUpdate [] ex1Gap.1, ex1Gap.2)).1 from rfl,
    fillShared_keys]
  dsimp only
  rw [mem_tableKeys_tableUpdate, ex1_gap_mem_keys]
  simp only [tableKeys_nil, List.not_mem_nil, false_or]
  push_cast
  omega

theorem ex1_gap_nodup : (tableKeys ex1Gap.1).Nodup := by
  show (tableKeys (fillFresh ex1Line ex1Attr0 100 (-1) (pyRangeAux 49 51)
      ex1GapA).1).Nodup
  refine fillFresh_keys_nodup _ _ _ _ _ _ ?_
  show (tableKeys (fillFresh ex1Line ex1Attr0 100 1 (pyRangeAux 50 1)
      ([], ex1Heap)).1).Nodup
  exact fillFresh_keys_nodup _ _ _ _ _ _ List.nodup_nil

theorem ex1_cov (i : Int) (h1 : 1 ≤ i) (h2 : i ≤ 1199) :
    tableGet ex1Trail.1 i ≠ [] := by
  show tableGet (trailingLoop ex1TrailAttr 100 1 (pyRangeAux 1000 200)
      (ex1Body.1, ex1Body.2, ex1Line)).1 i ≠ []
  by_cases htr : 200 ≤ i
  · have hi : i = 200 + ((i - 200).toNat : Int) := by omega
    rw [hi, trailingLoop_get_in ex1TrailAttr 100 1 1000 200 _ _ (by omega)]
    simp
  · rw [trailingLoop_get_out ex1TrailAttr 100 1 1000 200 _ i (by omega)]
    dsimp only
    rw [show ex1Body.1 = (fillShared ex1Line 100 (pyRangeAux 101 100)
        (tableUpdate [] ex1Gap.1, ex1Gap.2)).1 from rfl]
    by_cases hbd : 100 ≤ i
    · have hi : i = 100 + ((i - 100).toNat : Int) := by omega
      rw [hi, fillShared_get_in ex1Line 100 101 100 _ _ (by omega)]
      simp
    · rw [fillShared_get_out ex1Line 100 101 100 _ i (by omega)]
      dsimp only
      rw [tableGet_tableUpdate _ _ _ ex1_gap_nodup,
        if_pos ((ex1_gap_mem_keys i).mpr (by omega)),
        show ex1Gap.1 = (fillFresh ex1Line ex1Attr0 100 (-1) (pyRangeAux 49 51)
          ex1GapA).1 from rfl]
      by_cases hg2 : 51 ≤ i
      · have hi : i = 51 + ((i - 51).toNat : Int) := by omega
        rw [hi, fillFresh_get_in ex1Line ex1Attr0 100 (-1) 49 51 _ _ (by omega)]
        simp
      · rw [fillFresh_get_out ex1Line ex1Attr0 100 (-1) 49 51 _ i (by omega),
          show ex1GapA.1 = (fillFresh ex1Line ex1Attr0 100 1 (pyRangeAux 50 1)
            ([], ex1Heap)).1 from rfl]
        have hi : i = 1 + ((i - 1).toNat : Int) := by omega
        rw [hi, fillFresh_get_in ex1Line ex1Attr0 100 1 50 1 _ _ (by omega)]
        simp

theorem ex1_max : tableMax ex1Trail.1 = 1199 := by
  have h1 : (1199 : Int) ∈ tableKeys ex1Trail.1 := (ex1_keys 1199).mpr (by omega)
  have h2 : tableMax ex1Trail.1 ∈ tableKeys ex1Trail.1 :=
    tableMax_mem _ (fun he => by rw [he] at h1; cases h1)
  have h3 := (ex1_keys _).mp h2
  have h4 := le_tableMax _ _ h1
  omega

theorem ex1_run :
    _lookup_table ex1Heap [ex1Line] = .ok (ex1Trail.1, ex1Trail.2.1) := by
  unfold _lookup_table
  rw [ex1_fold]
  dsimp only
  rw [ex1_trailing]
  dsimp only
  have hcov : ∀ i : Int, 1 ≤ i → i ≤ tableMax (ex1Trail.1, ex1Trail.2.1).1 →
      tableGet (ex1Trail.1, ex1Trail.2.1).1 i ≠ [] := by
    intro i h1 h2
    dsimp only at h2 ⊢
    rw [ex1_max] at h2
    exact ex1_cov i h1 (by omega)
  rw [lookupValidate_ok (ex1Trail.1, ex1Trail.2.1) hcov]

theorem ex1_get150 : tableGet ex1Trail.1 150 = [ex1Line] := by
  show tableGet (trailingLoop ex1TrailAttr 100 1 (pyRangeAux 1000 200)
      (ex1Body.1, ex1Body.2, ex1Line)).1 150 = _
  rw [trailingLoop_get_out ex1TrailAttr 100 1 1000 200 _ 150 (by omega)]
  dsimp only
  rw [show ex1Body.1 = (fillShared ex1Line 100 (pyRangeAux 101 100)
      (tableUpdate [] ex1Gap.1, ex1Gap.2)).1 from rfl,
    show (150 : Int) = 100 + ((50 : Nat) : Int) from by norm_num,
    fillShared_get_in ex1Line 100 101 100 _ 50 (by omega)]
  dsimp only
  rw [tableGet_tableUpdate _ _ _ ex1_gap_nodup,
    if_neg (fun hm => by have := (ex1_gap_mem_keys _).mp hm; omega)]
  rfl

theorem ex1_out_read : ex1Trail.2.1.read ex1Line.attributes
    = dictSet ex1Dict kOffset (.int 100) := by
  show (trailingLoop ex1TrailAttr 100 1 (pyRangeAux 1000 200)
      (ex1Body.1, ex1Body.2, ex1Line)).2.1.read ex1Line.attributes = _
  rw [trailingLoop_read_old ex1TrailAttr 100 1 1000 200 _ ex1Line.attributes
      (by
        show ex1Line.attributes
          < (fillShared ex1Line 100 (pyRangeAux 101 100)
              (tableUpdate [] ex1Gap.1, ex1Gap.2)).2.next
        rw [fillShared_next]
        show ex1Line.attributes
          < (fillFresh ex1Line ex1Attr0 100 (-1) (pyRangeAux 49 51)
              ex1GapA).2.next
        rw [fillFresh_next]
        show ex1Line.attributes
          < (fillFresh ex1Line ex1Attr0 100 1 (pyRangeAux 50 1)
              ([], ex1Heap)).2.next + 49
        rw [fillFresh_next]
        decide)]
  dsimp only
  exact ex1_body_read

/-! ### Facts about the two-gene run (example 2) -/

theorem ex2_fold :
    lookupFold ex2Heap [ex2g1, ex2g2]
      = .ok (ex2Body2.1, ex2Body2.2, some ex2g2) := rfl

theorem ex2_body2_read : ex2Body2.2.read ex2g2.attributes
    = dictSet ex2d2 kOffset (.int 9) := by decide

theorem ex2_body2_name :
    dictGet? (ex2Body2.2.read ex2g2.attributes) kName
      = some (.str (toL "g2")) := by decide

theorem ex2_trailing :
    lookupTrailing ex2Body2.1 ex2Body2.2 ex2g2
      = .ok (ex2Trail.1, ex2Trail.2.1) := by
  rw [lookupTrailing_plus ex2Body2.1 ex2Body2.2 ex2g2 (toL "g2") rfl
      ex2_body2_name,
    show dictSet (ex2Body2.2.read ex2g2.attributes) kLocusTag
      (.str (tDown ++ toL "g2")) = ex2TrailAttr from rfl,
    show ex2g2.columns.start = (21 : Int) from rfl,
    show ex2g2.columns.end_ = (30 : Int) from rfl,
    show (30 : Int) + 1000 = 1030 from rfl]
  rfl

theorem ex2_body2_keys : tableKeys ex2Body2.1 = pyRange 1 31 := by decide

theorem ex2_body2_nonnil :
    (pyRange 1 31).all (fun j => !(tableGet ex2Body2.1 j).isEmpty) = true := by
  decide

theorem ex2_keys (i : Int) :
    i ∈ tableKeys ex2Trail.1 ↔ 1 ≤ i ∧ i ≤ 1029 := by
  show i ∈ tableKeys (trailingLoop ex2TrailAttr 21 1 (pyRangeAux 1000 30)
      (ex2Body2.1, ex2Body2.2, ex2g2)).1 ↔ _
  rw [trailingLoop_keys]
  dsimp only
  rw [ex2_body2_keys, mem_pyRange]
  push_cast
  omega

theorem ex2_cov (i : Int) (h1 : 1 ≤ i) (h2 : i ≤ 1029) :
    tableGet ex2Trail.1 i ≠ [] := by
  show tableGet (trailingLoop ex2TrailAttr 21 1 (pyRangeAux 1000 30)
      (ex2Body2.1, ex2Body2.2, ex2g2)).1 i ≠ []
  by_cases htr : 30 ≤ i
  · have hi : i = 30 + ((i - 30).toNat : Int) := by omega
    rw [hi, trailingLoop_get_in ex2TrailAttr 21 1 1000 30 _ _ (by omega)]
    simp
  · rw [trailingLoop_get_out ex2TrailAttr 21 1 1000 30 _ i (by omega)]
    dsimp only
    have hm : i ∈ pyRange 1 31 := mem_pyRange.mpr (by omega)
    have := List.all_eq_true.mp ex2_body2_nonnil i hm
    simpa [List.isEmpty_iff] using this

theorem ex2_max : tableMax ex2Trail.1 = 1029 := by
  have h1 : (1029 : Int) ∈ tableKeys ex2Trail.1 := (ex2_keys 1029).mpr (by omega)
  have h2 : tableMax ex2Trail.1 ∈ tableKeys ex2Trail.1 :=
    tableMax_mem _ (fun he => by rw [he] at h1; cases h1)
  have h3 := (ex2_keys _).mp h2
  have h4 := le_tableMax _ _ h1
  omega

theorem ex2_run :
    _lookup_table ex2Heap [ex2g1, ex2g2] = .ok (ex2Trail.1, ex2Trail.2.1) := by
  unfold _lookup_table
  rw [ex2_fold]
  dsimp only
  rw [ex2_trailing]
  dsimp only
  have hcov : ∀ i : Int, 1 ≤ i → i ≤ tableMax (ex2Trail.1, ex2Trail.2.1).1 →
      tableGet (ex2Trail.1, ex2Trail.2.1).1 i ≠ [] := by
    intro i h1 h2
    dsimp only at h2 ⊢
    rw [ex2_max] at h2
    exact ex2_cov i h1 (by omega)
  rw [lookupValidate_ok (ex2Trail.1, ex2Trail.2.1) hcov]

theorem ex2_get1030 : tableGet ex2Trail.1 1030 = [] :=
  tableGet_eq_nil_of_not_mem_keys _ _
    (fun hm => by have := (ex2_keys 1030).mp hm; omega)

theorem ex2_get30 : (tableGet ex2Trail.1 30).length = 2 := by
  show (tableGet (trailingLoop ex2TrailAttr 21 1 (pyRangeAux 1000 30)
      (ex2Body2.1, ex2Body2.2, ex2g2)).1 30).length = 2
  nth_rewrite 2 [show (30 : Int) = 30 + ((0 : Nat) : Int) from by norm_num]
  rw [trailingLoop_get_in ex2TrailAttr 21 1 1000 30 _ 0 (by omega)]
  dsimp only
  rw [show tableGet ex2Body2.1 (30 + ((0 : Nat) : Int)) = [ex2g2] from by decide]
  rfl

/-! ### Facts about the overlapping-features run (example 3) -/

theorem ex3_foldA :
    lookupFold ex3Heap [ex3A]
      = .ok (ex3Body1.1, ex3Body1.2, some ex3A) := rfl

theorem ex3_body1_get9 : tableGet ex3Body1.1 9 = [ex3A] := by decide

theorem ex3_fold :
    lookupFold ex3Heap [ex3A, ex3B, ex3C]
      = .ok (ex3Body3.1, ex3Body3.2, some ex3C) := rfl

theorem ex3_body3_name :
    dictGet? (ex3Body3.2.read ex3C.attributes) kName
      = some (.str (toL "C")) := by decide

theorem ex3_trailing :
    lookupTrailing ex3Body3.1 ex3Body3.2 ex3C
      = .ok (ex3Trail.1, ex3Trail.2.1) := by
  rw [lookupTrailing_plus ex3Body3.1 ex3Body3.2 ex3C (toL "C") rfl
      ex3_body3_name,
    show dictSet (ex3Body3.2.read ex3C.attributes) kLocusTag
      (.str (tDown ++ toL "C")) = ex3TrailAttr from rfl,
    show ex3C.columns.start = (12 : Int) from rfl,
    show ex3C.columns.end_ = (20 : Int) from rfl,
    show (20 : Int) + 1000 = 1020 from rfl]
  rfl

theorem ex3_body3_keys : tableKeys ex3Body3.1 = pyRange 1 21 := by decide

theorem ex3_body3_nonnil :
    (pyRange 1 21).all (fun j => !(tableGet ex3Body3.1 j).isEmpty) = true := by
  decide

theorem ex3_keys (i : Int) :
    i ∈ tableKeys ex3Trail.1 ↔ 1 ≤ i ∧ i ≤ 1019 := by
  show i ∈ tableKeys (trailingLoop ex3TrailAttr 12 1 (pyRangeAux 1000 20)
      (ex3Body3.1, ex3Body3.2, ex3C)).1 ↔ _
  rw [trailingLoop_keys]
  dsimp only
  rw [ex3_body3_keys, mem_pyRange]
  push_cast
  omega

theorem ex3_cov (i : Int) (h1 : 1 ≤ i) (h2 : i ≤ 1019) :
    tableGet ex3Trail.1 i ≠ [] := by
  show tableGet (trailingLoop ex3TrailAttr 12 1 (pyRangeAux 1000 20)
      (ex3Body3.1, ex3Body3.2, ex3C)).1 i ≠ []
  by_cases htr : 20 ≤ i
  · have hi : i = 20 + ((i - 20).toNat : Int) := by omega
    rw [hi, trailingLoop_get_in ex3TrailAttr 12 1 1000 20 _ _ (by omega)]
    simp
  · rw [trailingLoop_get_out ex3TrailAttr 12 1 1000 20 _ i (by omega)]
    dsimp only
    have hm : i ∈ pyRange 1 21 := mem_pyRange.mpr (by omega)
    have := List.all_eq_true.mp ex3_body3_nonnil i hm
    simpa [List.isEmpty_iff] using this

theorem ex3_max : tableMax ex3Trail.1 = 1019 := by
  have h1 : (1019 : Int) ∈ tableKeys ex3Trail.1 := (ex3_keys 1019).mpr (by omega)
  have h2 : tableMax ex3Trail.1 ∈ tableKeys ex3Trail.1 :=
    tableMax_mem _ (fun he => by rw [he] at h1; cases h1)
  have h3 := (ex3_keys _).mp h2
  have h4 := le_tableMax _ _ h1
  omega

theorem ex3_run :
    _lookup_table ex3Heap [ex3A, ex3B, ex3C]
      = .ok (ex3Trail.1, ex3Trail.2.1) := by
  unfold _lookup_table
  rw [ex3_fold]
  dsimp only
  rw [ex3_trailing]
  dsimp only
  have hcov : ∀ i : Int, 1 ≤ i → i ≤ tableMax (ex3Trail.1, ex3Trail.2.1).1 →
      tableGet (ex3Trail.1, ex3Trail.2.1).1 i ≠ [] := by
    intro i h1 h2
    dsimp only at h2 ⊢
    rw [ex3_max] at h2
    exact ex3_cov i h1 (by omega)
  rw [lookupValidate_ok (ex3Trail.1, ex3Trail.2.1) hcov]

theorem ex3_get9 : tableGet ex3Trail.1 9 = [⟨ex3B.columns, 3⟩] := by
  show tableGet (trailingLoop ex3TrailAttr 12 1 (pyRangeAux 1000 20)
      (ex3Body3.1, ex3Body3.2, ex3C)).1 9 = _
  rw [trailingLoop_get_out ex3TrailAttr 12 1 1000 20 _ 9 (by omega)]
  dsimp only
  decide

/-! ### String and number lemmas for the round-trip claim -/

theorem dropWhile_eq_self_of (p : Char → Bool) :
    ∀ s : Str, (∀ c ∈ s, p c = false) → s.dropWhile p = s
  | [], _ => rfl
  | c :: cs, h => by
    rw [List.dropWhile_cons, if_neg (by simp [h c (List.mem_cons_self c cs)])]

theorem pyStrip_eq_self (s : Str) (h : ∀ c ∈ s, isSpacePy c = false) :
    pyStrip s = s := by
  unfold pyStrip
  rw [dropWhile_eq_self_of _ s h,
    dropWhile_eq_self_of _ s.reverse (fun c hc => h c (List.mem_reverse.mp hc)),
    List.reverse_reverse]

theorem pyCharVal_pyDigitChar (n : Nat) (h : n < 10) :
    pyCharVal (pyDigitChar n) = n := by
  interval_cases n <;> rfl

theorem isDigitPy_pyDigitChar (n : Nat) (h : n < 10) :
    isDigitPy (pyDigitChar n) = true := by
  interval_cases n <;> rfl

theorem digitsVal_append (xs : Str) (c : Char) :
    digitsVal (xs ++ [c]) = digitsVal xs * 10 + pyCharVal c := by
  simp [digitsVal, List.foldl_append]

theorem natToStrAux_spec :
    ∀ (fuel n : Nat), n < 10 ^ (fuel + 1) →
      (natToStrAux (fuel + 1) n).all isDigitPy = true
      ∧ natToStrAux (fuel + 1) n ≠ []
      ∧ digitsVal (natToStrAux (fuel + 1) n) = n
  | 0, n, h => by
    have h10 : n < 10 := by simpa using h
    rw [show natToStrAux 1 n = [pyDigitChar n] from by
      rw [natToStrAux, if_pos h10]]
    exact ⟨by simp [isDigitPy_pyDigitChar n h10], by simp,
      by simp [digitsVal, pyCharVal_pyDigitChar n h10]⟩
  | fuel + 1, n, h => by
    by_cases h10 : n < 10
    · rw [show natToStrAux (fuel + 1 + 1) n = [pyDigitChar n] from by
        rw [natToStrAux, if_pos h10]]
      exact ⟨by simp [isDigitPy_pyDigitChar n h10], by simp,
        by simp [digitsVal, pyCharVal_pyDigitChar n h10]⟩
    · have hrec : n / 10 < 10 ^ (fuel + 1) := by
        rw [pow_succ'] at h
        exact Nat.div_lt_of_lt_mul h
      obtain ⟨ha, hne, hv⟩ := natToStrAux_spec fuel (n / 10) hrec
      rw [show natToStrAux (fuel + 1 + 1) n
          = natToStrAux (fuel + 1) (n / 10) ++ [pyDigitChar (n % 10)] from by
        rw [natToStrAux, if_neg h10]]
      refine ⟨?_, by simp, ?_⟩
      · simp [List.all_append, ha,
          isDigitPy_pyDigitChar (n % 10) (Nat.mod_lt _ (by omega))]
      · rw [digitsVal_append, hv,
          pyCharVal_pyDigitChar (n % 10) (Nat.mod_lt _ (by omega))]
        omega

theorem natToStr_spec (n : Nat) :
    (natToStr n).all isDigitPy = true ∧ natToStr n ≠ []
      ∧ digitsVal (natToStr n) = n := by
  apply natToStrAux_spec n n
  calc n < 10 ^ n := Nat.lt_pow_self (by norm_num) n
    _ ≤ 10 ^ (n + 1) := Nat.pow_le_pow_right (by norm_num) (by omega)

theorem parseDigits?_natToStr (n : Nat) : parseDigits? (natToStr n) = some n := by
  obtain ⟨ha, hne, hv⟩ := natToStr_spec n
  rw [parseDigits?, if_pos ⟨hne, ha⟩, hv]

theorem digit_not_space (c : Char) (h : isDigitPy c = true) :
    isSpacePy c = false := by
  simp only [isDigitPy, Bool.and_eq_true, decide_eq_true_eq] at h
  obtain ⟨h1, h2⟩ := h
  simp only [isSpacePy, Bool.or_eq_false_iff, decide_eq_false_iff_not]
  refine ⟨⟨⟨⟨⟨?_, ?_⟩, ?_⟩, ?_⟩, ?_⟩, ?_⟩ <;> (rintro rfl; revert h1 h2; decide)

theorem digit_ne (c : Char) (h : isDigitPy c = true) :
    c ≠ '-' ∧ c ≠ '+' ∧ c ≠ '\t' ∧ c ≠ '=' ∧ c ≠ ';' := by
  simp only [isDigitPy, Bool.and_eq_true, decide_eq_true_eq] at h
  obtain ⟨h1, h2⟩ := h
  refine ⟨?_, ?_, ?_, ?_, ?_⟩ <;> (rintro rfl; revert h1 h2; decide)

theorem pyInt_intToStr (n : Int) : pyInt (intToStr n) = some n := by
  by_cases hn : n < 0
  · rw [intToStr, if_pos hn]
    have hstrip : pyStrip ('-' :: natToStr (-n).toNat)
        = '-' :: natToStr (-n).toNat := by
      apply pyStrip_eq_self
      intro c hc
      rcases List.mem_cons.mp hc with rfl | hc2
      · decide
      · exact digit_not_space c
          (List.all_eq_true.mp (natToStr_spec (-n).toNat).1 c hc2)
    rw [pyInt, hstrip]
    show (parseDigits? (natToStr (-n).toNat)).map (fun k => -(k : Int)) = some n
    rw [parseDigits?_natToStr]
    show some (-(((-n).toNat : Nat) : Int)) = some n
    congr 1
    omega
  · rw [intToStr, if_neg hn]
    have hstrip : pyStrip (natToStr n.toNat) = natToStr n.toNat :=
      pyStrip_eq_self _ (fun c hc => digit_not_space c
        (List.all_eq_true.mp (natToStr_spec n.toNat).1 c hc))
    rw [pyInt, hstrip]
    obtain ⟨ha, hne, hv⟩ := natToStr_spec n.toNat
    split
    · rename_i rest heq
      have hd := List.all_eq_true.mp ha '-' (heq ▸ List.mem_cons_self '-' rest)
      exact absurd hd (by decide)
    · rename_i rest heq
      have hd := List.all_eq_true.mp ha '+' (heq ▸ List.mem_cons_self '+' rest)
      exact absurd hd (by decide)
    · rw [parseDigits?_natToStr]
      show some ((n.toNat : Nat) : Int) = some n
      congr 1
      omega

/-! ### Split and join lemmas for the round-trip claim -/

theorem pySplitAux_no_sep (sep : Char) :
    ∀ (s acc : Str), sep ∉ s → pySplitAux sep s acc = [acc.reverse ++ s]
  | [], acc, _ => by simp [pySplitAux]
  | c :: cs, acc, h => by
    simp only [pySplitAux]
    rw [if_neg (show ¬ c = sep from fun he => h (he ▸ List.mem_cons_self c cs)),
      pySplitAux_no_sep sep cs (c :: acc)
        (fun hm => h (List.mem_cons_of_mem c hm))]
    simp

theorem pySplit_no_sep (sep : Char) (s : Str) (h : sep ∉ s) :
    pySplit sep s = [s] := by
  rw [pySplit, pySplitAux_no_sep sep s [] h]
  simp

theorem pySplitAux_append (sep : Char) :
    ∀ (a s acc : Str), sep ∉ a →
      pySplitAux sep (a ++ sep :: s) acc = (acc.reverse ++ a) :: pySplit sep s
  | [], s, acc, _ => by
    simp only [List.nil_append, pySplitAux, if_pos rfl]
    simp [pySplit]
  | c :: a, s, acc, h => by
    simp only [List.cons_append, pySplitAux, List.append_eq]
    rw [if_neg (show ¬ c = sep from fun he => h (he ▸ List.mem_cons_self c a)),
      pySplitAux_append sep a s (c :: acc)
        (fun hm => h (List.mem_cons_of_mem c hm))]
    simp

theorem pySplit_append_sep (sep : Char) (a s : Str) (h : sep ∉ a) :
    pySplit sep (a ++ sep :: s) = a :: pySplit sep s := by
  rw [pySplit, pySplitAux_append sep a s [] h]
  simp

theorem pyJoin_single (sep : Char) (f : Str) : pyJoin sep [f] = f := by
  simp [pyJoin, List.intercalate]

theorem pyJoin_cons_cons (sep : Char) (f g : Str) (rest : List Str) :
    pyJoin sep (f :: g :: rest) = f ++ sep :: pyJoin sep (g :: rest) := by
  simp [pyJoin, List.intercalate, List.intersperse]

theorem contains_false_not_mem (a : Char) (s : Str)
    (h : s.contains a = false) : a ∉ s := by
  intro hm
  rw [show (List.contains s a = false) = (a ∉ s) from by simp] at h
  exact h hm

/-! ### The attribute round trip -/

theorem cleanAttr_not_mem (s : Str) (h : cleanAttr s = true) :
    '=' ∉ s ∧ ';' ∉ s ∧ '\t' ∉ s := by
  rw [cleanAttr, Bool.and_eq_true, Bool.and_eq_true] at h
  obtain ⟨⟨h1, h2⟩, h3⟩ := h
  exact ⟨contains_false_not_mem _ _ (by simpa using h1),
         contains_false_not_mem _ _ (by simpa using h2),
         contains_false_not_mem _ _ (by simpa using h3)⟩

theorem split_rendered :
    ∀ (rest : List (Str × Str)) (k v p : Str),
      (∀ q ∈ (k, v) :: rest, cleanAttr q.1 = true ∧ cleanAttr q.2 = true) →
      ('=' ∉ p) →
      pySplit '=' (p ++ pyJoin ';' (((k, v) :: rest).map
          (fun q => q.1 ++ '=' :: q.2)))
        = (p ++ k) :: renderedGroups ((k, v) :: rest)
  | [], k, v, p, hcl, hp => by
    obtain ⟨hck, hcv⟩ := hcl (k, v) (List.mem_cons_self _ _)
    rw [List.map_cons, List.map_nil, pyJoin_single]
    dsimp only
    rw [show p ++ (k ++ '=' :: v) = (p ++ k) ++ '=' :: v from by
      simp [List.append_assoc]]
    rw [pySplit_append_sep '=' (p ++ k) v
        (fun hm => (List.mem_append.mp hm).elim hp
          (cleanAttr_not_mem k hck).1),
      pySplit_no_sep '=' v (cleanAttr_not_mem v hcv).1]
    rfl
  | (k2, v2) :: rest, k, v, p, hcl, hp => by
    obtain ⟨hck, hcv⟩ := hcl (k, v) (List.mem_cons_self _ _)
    have hJ : pyJoin ';' (((k, v) :: (k2, v2) :: rest).map
          (fun q => q.1 ++ '=' :: q.2))
        = (k ++ '=' :: v) ++ ';' :: pyJoin ';' (((k2, v2) :: rest).map
            (fun q => q.1 ++ '=' :: q.2)) := by
      rw [List.map_cons, List.map_cons, pyJoin_cons_cons]
    rw [hJ]
    rw [show p ++ ((k ++ '=' :: v) ++ ';' :: pyJoin ';' (((k2, v2) :: rest).map
          (fun q => q.1 ++ '=' :: q.2)))
        = (p ++ k) ++ '=' :: ((v ++ [';']) ++ pyJoin ';' (((k2, v2) :: rest).map
          (fun q => q.1 ++ '=' :: q.2))) from by
      simp [List.append_assoc]]
    rw [pySplit_append_sep '=' (p ++ k) _
        (fun hm => (List.mem_append.mp hm).elim hp
          (cleanAttr_not_mem k hck).1)]
    rw [split_rendered rest k2 v2 (v ++ [';'])
        (fun q hq => hcl q (List.mem_cons_of_mem _ hq))
        (fun hm => (List.mem_append.mp hm).elim
          (cleanAttr_not_mem v hcv).1 (by simp))]
    rw [show (v ++ [';']) ++ k2 = v ++ ';' :: k2 from by simp]
    rfl

theorem zip_rendered :
    ∀ (rest : List (Str × Str)) (k v lead : Str),
      (∀ q ∈ (k, v) :: rest, cleanAttr q.1 = true ∧ cleanAttr q.2 = true) →
      (';' ∉ lead) →
      (((lead :: renderedGroups ((k, v) :: rest)).map (pySplit ';')).map
          (fun item => item.getLastD [])).zip
        ((((lead :: renderedGroups ((k, v) :: rest)).map (pySplit ';')).drop
            1).map (fun item => item.headD []))
        = (lead :: ((k, v) :: rest).tail.map Prod.fst).zip
            (((k, v) :: rest).map Prod.snd)
  | [], k, v, lead, hcl, hl => by
    obtain ⟨hck, hcv⟩ := hcl (k, v) (List.mem_cons_self _ _)
    have hg : (lead :: renderedGroups [(k, v)]).map (pySplit ';')
        = [[lead], [v]] := by
      rw [show renderedGroups [(k, v)] = [v] from rfl, List.map_cons,
        List.map_cons, List.map_nil, pySplit_no_sep ';' lead hl,
        pySplit_no_sep ';' v (cleanAttr_not_mem v hcv).2.1]
    rw [hg]
    rfl
  | (k2, v2) :: rest, k, v, lead, hcl, hl => by
    obtain ⟨hck2, hcv2⟩ := hcl (k2, v2)
      (List.mem_cons_of_mem _ (List.mem_cons_self _ _))
    obtain ⟨hck, hcv⟩ := hcl (k, v) (List.mem_cons_self _ _)
    have hk2 : ';' ∉ k2 := (cleanAttr_not_mem k2 hck2).2.1
    have IH := zip_rendered rest k2 v2 k2
      (fun q hq => hcl q (List.mem_cons_of_mem _ hq)) hk2
    have hg : (lead :: renderedGroups ((k, v) :: (k2, v2) :: rest)).map
          (pySplit ';')
        = [lead] :: [v, k2]
            :: (renderedGroups ((k2, v2) :: rest)).map (pySplit ';') := by
      rw [show renderedGroups ((k, v) :: (k2, v2) :: rest)
          = (v ++ ';' :: k2) :: renderedGroups ((k2, v2) :: rest) from rfl,
        List.map_cons, List.map_cons, pySplit_no_sep ';' lead hl,
        pySplit_append_sep ';' v k2 (cleanAttr_not_mem v hcv).2.1,
        pySplit_no_sep ';' k2 hk2]
    have hg2 : (k2 :: renderedGroups ((k2, v2) :: rest)).map (pySplit ';')
        = [k2] :: (renderedGroups ((k2, v2) :: rest)).map (pySplit ';') := by
      rw [List.map_cons, pySplit_no_sep ';' k2 hk2]
    rw [hg]
    rw [hg2] at IH
    simp only [List.map_cons, List.drop_succ_cons, List.drop_zero,
      List.zip_cons_cons, List.tail_cons] at IH ⊢
    rw [show (([lead] : List Str).getLastD []) = lead from rfl,
      show (([v, k2] : List Str).getLastD []) = k2 from rfl,
      show (([v, k2] : List Str).headD []) = v from rfl]
    rw [show (([k2] : List Str).getLastD []) = k2 from rfl] at IH
    rw [IH]

theorem zip_map_fst_snd_eq :
    ∀ (l : List (Str × Str)), (l.map Prod.fst).zip (l.map Prod.snd) = l
  | [] => rfl
  | (k, v) :: rest => by
    rw [List.map_cons, List.map_cons, List.zip_cons_cons,
      zip_map_fst_snd_eq rest]

theorem dictSet_fresh (k : Str) (v : AttrVal) :
    ∀ (d : PyDict), k ∉ d.map Prod.fst → dictSet d k v = d ++ [(k, v)]
  | [], _ => rfl
  | (k0, v0) :: rest, h => by
    rw [List.map_cons] at h
    rw [dictSet_cons,
      if_neg (show ¬ k0 = k from
        fun he => h (he ▸ List.mem_cons_self k0 (rest.map Prod.fst))),
      dictSet_fresh k v rest (fun hm => h (List.mem_cons_of_mem _ hm))]
    rfl

theorem dictOfPairs_foldl :
    ∀ (l : List (Str × AttrVal)) (acc : PyDict),
      (((acc ++ l).map Prod.fst).Nodup) →
      l.foldl (fun d kv => dictSet d kv.1 kv.2) acc = acc ++ l
  | [], acc, _ => by simp
  | (k, v) :: rest, acc, h => by
    have hk : k ∉ acc.map Prod.fst := by
      intro hm
      rw [List.map_append, List.map_cons, List.nodup_append] at h
      exact h.2.2 hm (List.mem_cons_self _ _)
    rw [List.foldl_cons, dictSet_fresh k v acc hk,
      dictOfPairs_foldl rest (acc ++ [(k, v)])
        (by rw [List.append_assoc]; simpa using h)]
    simp

theorem dictOfPairs_eq_self (l : List (Str × AttrVal))
    (h : (l.map Prod.fst).Nodup) : dictOfPairs l = l := by
  rw [dictOfPairs, dictOfPairs_foldl l [] (by simpa using h)]
  rfl

theorem renderAttrs_map_str (ps : List (Str × Str)) :
    renderAttrs (ps.map (fun p => (p.1, AttrVal.str p.2)))
      = pyJoin ';' (ps.map (fun q => q.1 ++ '=' :: q.2)) := by
  rw [renderAttrs, List.map_map]
  rfl

theorem getAttrs_renderAttrs (ps : List (Str × Str)) (hne : ps ≠ [])
    (hcl : ∀ q ∈ ps, cleanAttr q.1 = true ∧ cleanAttr q.2 = true)
    (hnd : (ps.map Prod.fst).Nodup) :
    _get_gff_attributes (renderAttrs (ps.map (fun p => (p.1, AttrVal.str p.2))))
      = ps.map (fun p => (p.1, AttrVal.str p.2)) := by
  match ps, hne with
  | (k, v) :: rest, _ =>
    rw [renderAttrs_map_str]
    rw [_get_gff_attributes]
    rw [show pyJoin ';' (((k, v) :: rest).map (fun q => q.1 ++ '=' :: q.2))
        = [] ++ pyJoin ';' (((k, v) :: rest).map (fun q => q.1 ++ '=' :: q.2))
      from rfl]
    rw [split_rendered rest k v [] hcl (by simp)]
    rw [show ([] : Str) ++ k = k from rfl]
    rw [zip_rendered rest k v k hcl
      (cleanAttr_not_mem k (hcl (k, v) (List.mem_cons_self _ _)).1).2.1]
    rw [show (k :: ((k, v) :: rest).tail.map Prod.fst)
        = ((k, v) :: rest).map Prod.fst from by
      simp]
    rw [zip_map_fst_snd_eq]
    apply dictOfPairs_eq_self
    rw [List.map_map]
    simpa using hnd

/-! ### The data-line round trip -/

theorem cleanField_not_mem (s : Str) (h : cleanField s = true) : '\t' ∉ s :=
  contains_false_not_mem _ _ (by simpa [cleanField] using h)

theorem tab_not_mem_intToStr (n : Int) : '\t' ∉ intToStr n := by
  intro hm
  rw [intToStr] at hm
  by_cases hn : n < 0
  · rw [if_pos hn] at hm
    rcases List.mem_cons.mp hm with he | hm2
    · exact absurd he (by decide)
    · exact absurd (List.all_eq_true.mp (natToStr_spec (-n).toNat).1 _ hm2)
        (by decide)
  · rw [if_neg hn] at hm
    exact absurd (List.all_eq_true.mp (natToStr_spec n.toNat).1 _ hm)
      (by decide)

theorem mem_pyJoin (sep : Char) (x : Char) :
    ∀ (fs : List Str), x ∈ pyJoin sep fs → x = sep ∨ ∃ f ∈ fs, x ∈ f
  | [], h => absurd h (by rw [show pyJoin sep [] = [] from rfl]; simp)
  | [f], h => by
    rw [pyJoin_single] at h
    exact Or.inr ⟨f, by simp, h⟩
  | f :: g :: rest, h => by
    rw [pyJoin_cons_cons] at h
    rcases List.mem_append.mp h with hf | hc
    · exact Or.inr ⟨f, by simp, hf⟩
    · rcases List.mem_cons.mp hc with rfl | hr
      · exact Or.inl rfl
      · rcases mem_pyJoin sep x (g :: rest) hr with he | ⟨f2, hf2, hx⟩
        · exact Or.inl he
        · exact Or.inr ⟨f2, List.mem_cons_of_mem _ hf2, hx⟩

theorem tab_not_mem_renderAttrs (ps : List (Str × Str))
    (hcl : ∀ q ∈ ps, cleanAttr q.1 = true ∧ cleanAttr q.2 = true) :
    '\t' ∉ renderAttrs (ps.map (fun p => (p.1, AttrVal.str p.2))) := by
  intro hm
  rw [renderAttrs_map_str] at hm
  rcases mem_pyJoin ';' '\t' _ hm with he | ⟨f, hf, hx⟩
  · exact absurd he (by decide)
  · obtain ⟨q, hq, rfl⟩ := List.mem_map.mp hf
    rcases List.mem_append.mp hx with h1 | h2
    · exact (cleanAttr_not_mem q.1 (hcl q hq).1).2.2 h1
    · rcases List.mem_cons.mp h2 with he | h3
      · exact absurd he (by decide)
      · exact (cleanAttr_not_mem q.2 (hcl q hq).2).2.2 h3

theorem pySplit_gffLine (c : GffColumns) (attrs : Str)
    (h1 : cleanField c.seqid = true) (h2 : cleanField c.source = true)
    (h3 : cleanField c.feature = true) (h6 : cleanField c.score = true)
    (h7 : cleanField c.strand = true) (h8 : cleanField c.phase = true)
    (ha : '\t' ∉ attrs) :
    pySplit '\t' (gffColumnsStr c ++ '\t' :: attrs)
      = [c.seqid, c.source, c.feature, intToStr c.start, intToStr c.end_,
         c.score, c.strand, c.phase, attrs] := by
  rw [gffColumnsStr, pyJoin_cons_cons, pyJoin_cons_cons, pyJoin_cons_cons,
    pyJoin_cons_cons, pyJoin_cons_cons, pyJoin_cons_cons, pyJoin_cons_cons,
    pyJoin_single]
  simp only [List.append_assoc, List.cons_append]
  rw [pySplit_append_sep '\t' c.seqid _ (cleanField_not_mem _ h1),
    pySplit_append_sep '\t' c.source _ (cleanField_not_mem _ h2),
    pySplit_append_sep '\t' c.feature _ (cleanField_not_mem _ h3),
    pySplit_append_sep '\t' (intToStr c.start) _ (tab_not_mem_intToStr _),
    pySplit_append_sep '\t' (intToStr c.end_) _ (tab_not_mem_intToStr _),
    pySplit_append_sep '\t' c.score _ (cleanField_not_mem _ h6),
    pySplit_append_sep '\t' c.strand _ (cleanField_not_mem _ h7),
    pySplit_append_sep '\t' c.phase _ (cleanField_not_mem _ h8),
    pySplit_no_sep '\t' attrs ha]

theorem parseDataLine_gffLineStr (heap h2 : Heap) (c : GffColumns) (id : Nat)
    (ps : List (Str × Str)) (hne : ps ≠ [])
    (hcl : ∀ q ∈ ps, cleanAttr q.1 = true ∧ cleanAttr q.2 = true)
    (hnd : (ps.map Prod.fst).Nodup)
    (hread : h2.read id = ps.map (fun p => (p.1, AttrVal.str p.2)))
    (hf1 : cleanField c.seqid = true) (hf2 : cleanField c.source = true)
    (hf3 : cleanField c.feature = true) (hf6 : cleanField c.score = true)
    (hf7 : cleanField c.strand = true) (hf8 : cleanField c.phase = true) :
    parseDataLine heap (gffLineStr h2 ⟨c, id⟩)
      = .ok (⟨c, heap.next⟩,
          (heap.alloc (ps.map (fun p => (p.1, AttrVal.str p.2)))).2) := by
  have hline : gffLineStr h2 ⟨c, id⟩
      = gffColumnsStr c
          ++ '\t' :: renderAttrs (ps.map (fun p => (p.1, AttrVal.str p.2))) := by
    rw [gffLineStr]
    dsimp only
    rw [hread]
  simp only [parseDataLine, hline,
    pySplit_gffLine c _ hf1 hf2 hf3 hf6 hf7 hf8
      (tab_not_mem_renderAttrs ps hcl)]
  rw [show List.take 8 [c.seqid, c.source, c.feature, intToStr c.start,
      intToStr c.end_, c.score, c.strand, c.phase,
      renderAttrs (ps.map (fun p => (p.1, AttrVal.str p.2)))]
    = [c.seqid, c.source, c.feature, intToStr c.start, intToStr c.end_,
       c.score, c.strand, c.phase] from rfl]
  rw [show List.drop 8 [c.seqid, c.source, c.feature, intToStr c.start,
      intToStr c.end_, c.score, c.strand, c.phase,
      renderAttrs (ps.map (fun p => (p.1, AttrVal.str p.2)))]
    = [renderAttrs (ps.map (fun p => (p.1, AttrVal.str p.2)))] from rfl]
  simp only [mkGffColumns, pyInt_intToStr]
  rw [pyJoin_single, getAttrs_renderAttrs ps hne hcl hnd]
  rfl

/-! ### The claims -/

/-- Claim C1: the spec says each body coordinate `i` of a `+`-strand feature
`[start, end]` stores a record with `offset = |i - start|`, so a feature
spanning `[100, 200]` stores offset 50 at coordinate 150.  The code disagrees:
`copy()` (`dataclasses.replace`) shares the one attributes dict, and the body
loop assigns `offset` into that shared dict on every iteration, so after the
run every body record of the feature sees the *last* offset written,
`|200 - 100| = 100`.  The record stored at 150 is the original line itself and
the dict it points to holds offset 100, not 50. -/
theorem claim_C1 :
    _lookup_table ex1Heap [ex1Line] = .ok (ex1Trail.1, ex1Trail.2.1)
    ∧ tableGet ex1Trail.1 150 = [ex1Line]
    ∧ ex1Trail.2.1.read ex1Line.attributes = dictSet ex1Dict kOffset (.int 100)
    ∧ dictGet? (dictSet ex1Dict kOffset (.int 100)) kOffset = some (.int 100)
    ∧ (100 : Int) ≠ |(150 : Int) - 100| :=
  ⟨ex1_run, ex1_get150, ex1_out_read, by decide, by decide⟩

/-- Claim C2: the spec says building the lookup table never mutates the
original parsed records — stored entries are copies whose `offset` /
`locus_tag` overrides do not appear on the original.  The code disagrees: the
body loop writes `offset` into the attributes dict shared with the original
record.  Before the run the original's dict has no `offset`; after a
successful run the dict at the original line's own attributes id carries
`offset = 100`. -/
theorem claim_C2 :
    dictGet? (ex1Heap.read ex1Line.attributes) kOffset = none
    ∧ _lookup_table ex1Heap [ex1Line] = .ok (ex1Trail.1, ex1Trail.2.1)
    ∧ ex1Trail.2.1.read ex1Line.attributes = dictSet ex1Dict kOffset (.int 100)
    ∧ dictGet? (dictSet ex1Dict kOffset (.int 100)) kOffset = some (.int 100) :=
  ⟨by decide, ex1_run, ex1_out_read, by decide⟩

/-- Claim C3: whenever `_lookup_table` returns a table (rather than raising),
every integer coordinate from 1 through the maximum key maps to a non-empty
record list — the final validation pass admits no gap. -/
theorem claim_C3 (heap : Heap) (lines : List GffLine) (t : Table) (h : Heap)
    (hok : _lookup_table heap lines = .ok (t, h)) :
    ∀ i : Int, 1 ≤ i → i ≤ tableMax t → tableGet t i ≠ [] :=
  _lookup_table_ok_inv heap lines t h hok

/-- Witness for C3 at the two-gene run: coordinate 500 of the returned table
is non-empty. -/
theorem claim_C3_witness : tableGet ex2Trail.1 500 ≠ [] :=
  claim_C3 ex2Heap [ex2g1, ex2g2] ex2Trail.1 ex2Trail.2.1 ex2_run 500
    (by norm_num) (by rw [ex2_max]; norm_num)

/-- Claim C4: gap fill between consecutive eligible features uses
`gap_span = (this_start - 1) - (last_end + 1)` and
`gap_midpoint = last_end + 1 + gap_span // 2` (floor division).  For an
upstream `+` feature ending at 100 and a downstream `+` feature starting at
121 the midpoint is 110; each coordinate `i` of `[101, 110]` receives a copy
of the upstream feature with `locus_tag = _down- + Name` and
`offset = i - 90` (its start is 90), and each `i` of `[111, 120]` a copy of
the downstream feature with `locus_tag = _up- + Name` and
`offset = -(i - 121)`. -/
theorem claim_C4 :
    _gapfill_table ex4Heap ex4Down (some ex4Up) = .ok ex4Gap
    ∧ ((121 : Int) - 1) - (100 + 1) = 19
    ∧ (100 : Int) + 1 + Int.fdiv 19 2 = 110
    ∧ ((pyRange 101 111).all (fun i =>
        decide (tableGet ex4Gap.1 i = [⟨ex4Up.columns, 2 + (i - 101).toNat⟩])
        && decide (dictGet? (ex4Gap.2.read (2 + (i - 101).toNat)) kOffset
            = some (.int (i - 90)))
        && decide (dictGet? (ex4Gap.2.read (2 + (i - 101).toNat)) kLocusTag
            = some (.str (tDown ++ toL "g1"))))) = true
    ∧ ((pyRange 111 121).all (fun i =>
        decide (tableGet ex4Gap.1 i = [⟨ex4Down.columns, 12 + (i - 111).toNat⟩])
        && decide (dictGet? (ex4Gap.2.read (12 + (i - 111).toNat)) kOffset
            = some (.int (-(i - 121))))
        && decide (dictGet? (ex4Gap.2.read (12 + (i - 111).toNat)) kLocusTag
            = some (.str (tUp ++ toL "g2"))))) = true :=
  ⟨rfl, by decide, by decide, by decide, by decide⟩

/-- Claim C5 (amended): the trailing fill iterates `range(end, end + 1000)`,
which starts *at* the last feature's `end` and stops at `end + 999` — not
`end + 1000`.  For the two-gene example ending at 30 the table therefore
covers exactly `[1, 1029]` (maximum key 1029, every coordinate non-empty),
and coordinate 30 holds two records (the body record plus the first trailing
record), while the claimed coordinate 1030 is absent. -/
theorem claim_C5 :
    _lookup_table ex2Heap [ex2g1, ex2g2] = .ok (ex2Trail.1, ex2Trail.2.1)
    ∧ tableMax ex2Trail.1 = 1029
    ∧ (∀ i : Int, 1 ≤ i → i ≤ 1029 → tableGet ex2Trail.1 i ≠ [])
    ∧ (tableGet ex2Trail.1 30).length = 2 :=
  ⟨ex2_run, ex2_max, ex2_cov, ex2_get30⟩

/-- Counterexample to claim C5 as stated: the two-gene run returns a table
with nothing at coordinate 1030 — the trailing fill covers only up to
`end + 999 = 1029`. -/
theorem claim_C5_counterexample :
    _lookup_table ex2Heap [ex2g1, ex2g2] = .ok (ex2Trail.1, ex2Trail.2.1)
    ∧ tableGet ex2Trail.1 1030 = [] :=
  ⟨ex2_run, ex2_get1030⟩

/-- Claim C6 (amended): within one table, stores append —
`lookup_table[coord].append(...)` keeps every record previously stored at the
coordinate.  But the gap table is merged into the accumulated table by plain
`dict.update`, which *replaces* the whole list at each key the gap table
touches, discarding records stored earlier at those coordinates. -/
theorem claim_C6 :
    (∀ (t : Table) (i : Int) (l : GffLine) (j : Int),
        tableGet (tableAppend t i l) j
          = if j = i then tableGet t i ++ [l] else tableGet t j)
    ∧ ∀ (t gap : Table) (i : Int), (tableKeys gap).Nodup →
        tableGet (tableUpdate t gap) i
          = if i ∈ tableKeys gap then tableGet gap i else tableGet t i := by
  constructor
  · intro t i l j
    exact tableGet_tableAppend t i l j
  · intro t gap i hnd
    exact tableGet_tableUpdate gap t i hnd

/-- Counterexample to claim C6 as stated ("never overwrites"): in the
overlap run, feature A's body pass stores A at coordinate 9, but the B→C gap
fill also covers 9 and its table is merged with `dict.update`, so the final
table holds only the synthetic gap record there: A's record is gone. -/
theorem claim_C6_counterexample :
    lookupFold ex3Heap [ex3A] = .ok (ex3Body1.1, ex3Body1.2, some ex3A)
    ∧ tableGet ex3Body1.1 9 = [ex3A]
    ∧ _lookup_table ex3Heap [ex3A, ex3B, ex3C] = .ok (ex3Trail.1, ex3Trail.2.1)
    ∧ tableGet ex3Trail.1 9 = [⟨ex3B.columns, 3⟩]
    ∧ ex3A ∉ [(⟨ex3B.columns, 3⟩ : GffLine)] :=
  ⟨ex3_foldA, ex3_body1_get9, ex3_run, ex3_get9, by decide⟩

/-- `GffColumns(*args)` with fewer than 5 positional arguments raises
`TypeError` (too few arguments for the non-defaulted fields). -/
theorem mkGffColumns_short (args : List Str) (h : args.length < 5) :
    mkGffColumns args = .error .typeError := by
  match args, h with
  | [], _ => rfl
  | [a], _ => rfl
  | [a, b], _ => rfl
  | [a, b, c], _ => rfl
  | [a, b, c, d], _ => rfl
  | a :: b :: c :: d :: e :: rest, h =>
    exact absurd h (by simp only [List.length_cons]; omega)

/-- Claim C7 (amended): only a `TypeError` from `GffColumns(*data[:8])` is
caught and re-raised as the fatal `IOError` embedding the raw line — and that
happens exactly when the line has fewer than five tab-separated fields.  A
line with five to seven fields parses successfully with defaulted
`score`/`strand`/`phase`, and a non-integer `start`/`end` raises the bare
`int()` `ValueError`, which propagates uncaught and names only the offending
field, not the line. -/
theorem claim_C7 :
    (∀ (heap : Heap) (line : Str), (pySplit '\t' line).length < 5 →
        parseDataLine heap line = .error (.ioError (ioMsg line))
          ∧ line <:+: ioMsg line)
    ∧ exceptOk (parseDataLine Heap.empty (toL "a\tb\tc\t1\t2")) = true
    ∧ parseDataLine Heap.empty (toL "a\tb\tc\tX\t5\t.\t+\t.\tName=n")
        = .error (.valueError (invalidIntMsg (toL "X"))) := by
  refine ⟨?_, by decide, by decide⟩
  intro heap line h
  have hlen : ((pySplit '\t' line).take 8).length < 5 := by
    rw [List.length_take]
    omega
  simp only [parseDataLine]
  rw [mkGffColumns_short _ hlen]
  exact ⟨rfl,
    toL "\n!!! ERROR: Probably corrupted file. Here\x27s the last line read:\n\n",
    toL "\n\n", by simp [ioMsg]⟩

/-- Counterexample to claim C7 as stated: a line with a non-integer `start`
(`X`) raises a `ValueError` whose message does *not* contain the raw line
(only the offending field), and a line with just five tab-separated fields —
fewer than the claimed required eight — parses successfully. -/
theorem claim_C7_counterexample :
    parseDataLine Heap.empty (toL "a\tb\tc\tX\t5\t.\t+\t.\tName=n")
      = .error (.valueError (invalidIntMsg (toL "X")))
    ∧ ¬ (toL "a\tb\tc\tX\t5\t.\t+\t.\tName=n") <:+: invalidIntMsg (toL "X")
    ∧ exceptOk (parseDataLine Heap.empty (toL "a\tb\tc\t1\t2")) = true := by
  refine ⟨by decide, by decide, by decide⟩

/-- Claim C8: the raw attribute string is split on `=`, each group then on
`;`; the key of each pair is the last `;`-segment of a group and its value
the first `;`-segment of the following group.  In particular
`ID=test01;attr1=+` parses to `{ID: test01, attr1: +}`; a stray `;`-segment
carrying no `=` of its own is dropped, and a `;` before the first `=` stays
attached to the first key. -/
theorem claim_C8 :
    _get_gff_attributes (toL "ID=test01;attr1=+")
      = [(toL "ID", .str (toL "test01")), (toL "attr1", .str (toL "+"))]
    ∧ _get_gff_attributes (toL "ID=x;junk;Name=y")
      = [(toL "ID", .str (toL "x")), (toL "Name", .str (toL "y"))]
    ∧ _get_gff_attributes (toL "a;b=c") = [(toL "b", .str (toL "c"))] := by
  refine ⟨by decide, by decide, by decide⟩

/-- Claim C9 (amended): the round trip holds for data records — parsing the
serialized form of a record (8 tab-joined columns, a tab, the `;`-joined
`key=value` attribute string) reproduces the record exactly, columns and
attribute ordering included, whenever the fields are tab-free and the
attribute keys and values avoid `=`, `;` and tab with distinct keys; a
canonical data line passes through `from_file` and re-serialization
byte-identically.  Metadata lines do *not* round-trip: `GffMetadatum.__str__`
always emits a tab after the name (see the counterexample). -/
theorem claim_C9 :
    (∀ (heap h2 : Heap) (c : GffColumns) (id : Nat)
        (ps : List (Str × Str)),
       ps ≠ [] →
       (∀ q ∈ ps, cleanAttr q.1 = true ∧ cleanAttr q.2 = true) →
       (ps.map Prod.fst).Nodup →
       h2.read id = ps.map (fun p => (p.1, AttrVal.str p.2)) →
       cleanField c.seqid = true → cleanField c.source = true →
       cleanField c.feature = true → cleanField c.score = true →
       cleanField c.strand = true → cleanField c.phase = true →
       parseDataLine heap (gffLineStr h2 ⟨c, id⟩)
         = .ok (⟨c, heap.next⟩,
             (heap.alloc (ps.map (fun p => (p.1, AttrVal.str p.2)))).2))
    ∧ (match from_file Heap.empty [toL "a\tb\tc\t1\t2\t.\t+\t.\tID=x;Name=y"]
          with
       | .ok (g, h) => g.lines.map (gffLineStr h)
       | .error _ => []) = [toL "a\tb\tc\t1\t2\t.\t+\t.\tID=x;Name=y"] := by
  constructor
  · intro heap h2 c id ps hne hcl hnd hread hf1 hf2 hf3 hf6 hf7 hf8
    exact parseDataLine_gffLineStr heap h2 c id ps hne hcl hnd hread
      hf1 hf2 hf3 hf6 hf7 hf8
  · decide

/-- Counterexample to claim C9 as stated: parsing the canonical header
`##gff-version 3` and re-serializing appends a tab — `GffMetadatum.__str__`
joins name and values with a tab even when there are no values, so metadata
lines are not reproduced byte-identically. -/
theorem claim_C9_counterexample :
    (match from_file Heap.empty [toL "##gff-version 3",
        toL "a\tb\tc\t1\t2\t.\t+\t.\tID=x"] with
     | .ok (g, h) => (writeGffFile h g).headD []
     | .error _ => []) = toL "##gff-version 3\t"
    ∧ toL "##gff-version 3\t" ≠ toL "##gff-version 3" :=
  ⟨by decide, by decide⟩

/-- `parseHeaderLine` always succeeds: the flag it constructs is one of the
two values `GffMetadatum.__post_init__` accepts. -/
theorem parseHeaderLine_ok (line : Str) :
    ∃ m, parseHeaderLine line = .ok m := by
  unfold parseHeaderLine mkGffMetadatum
  by_cases hp : (toL "##").isPrefixOf line
  · rw [if_pos hp, if_pos (Or.inr rfl)]
    exact ⟨_, rfl⟩
  · rw [if_neg hp, if_pos (Or.inl rfl)]
    exact ⟨_, rfl⟩

/-- The `_from_file` loop over header and blank lines only accumulates
metadata and yields nothing. -/
theorem _from_fileAux_headers (heap : Heap) :
    ∀ (input : List Str) (ms : List GffMetadatum) (shown : Bool)
      (acc : List GffItem),
      (∀ l ∈ input, (toL "#").isPrefixOf (pyStrip l) ∨ pyStrip l = []) →
      _from_fileAux heap ms shown acc input = .ok (acc, heap)
  | [], _, _, _, _ => rfl
  | l :: rest, ms, shown, acc, hall => by
    have hrest : ∀ x ∈ rest, (toL "#").isPrefixOf (pyStrip x) ∨ pyStrip x = [] :=
      fun x hx => hall x (List.mem_cons_of_mem l hx)
    rcases hall l (List.mem_cons_self l rest) with hh | hb
    · rw [_from_fileAux, if_pos hh]
      obtain ⟨m, hm⟩ := parseHeaderLine_ok (pyStrip l)
      rw [hm]
      exact _from_fileAux_headers heap rest (ms ++ [m]) shown acc hrest
    · rw [_from_fileAux, hb]
      rw [if_neg (by decide), if_neg (by decide)]
      exact _from_fileAux_headers heap rest ms shown acc hrest

/-- Claim C10: with header (or blank) lines but no data lines, `from_file`
returns a `GffFile` whose metadata block is empty — the block is yielded only
when the first data line is reached, so with zero data lines the header lines
are discarded. -/
theorem claim_C10 (heap : Heap) (input : List Str)
    (hall : ∀ l ∈ input, (toL "#").isPrefixOf (pyStrip l) ∨ pyStrip l = []) :
    from_file heap input = .ok (⟨[], []⟩, heap) := by
  unfold from_file _from_file
  rw [_from_fileAux_headers heap input [] false [] hall]
  rfl

/-- Witness for C10: a `##` header, a blank line and a `#` header with a tab
parse to a `GffFile` with empty metadata and no records. -/
theorem claim_C10_witness :
    from_file Heap.empty [toL "##a", toL "", toL "#b\tx"]
      = .ok (⟨[], []⟩, Heap.empty) :=
  claim_C10 Heap.empty [toL "##a", toL "", toL "#b\tx"] (by decide)

end Bioino
